import Mathlib

/-
  Shallow embedding of `libsolidity/analysis/FunctionCallGraph.cpp`
  (`FunctionCallGraphBuilder`): a static call-graph builder for a single
  contract.  Callable bodies are modelled as the ordered list of reference
  events the (external) AST traversal fires at the builder's visitor hooks;
  `solAssert` failures are modelled as `Except.error`; the recursion of
  `visitCallable` is indexed by fuel.
-/

namespace FunctionCallGraph

/-- The four synthetic dispatch/entry nodes (`SpecialNode`). -/
inductive SpecialNode
  | entryCreation
  | internalCreationDispatch
  | entry
  | internalDispatch
deriving DecidableEq

/-- Modelled from the spec: the enumeration order of `SpecialNode` (the header
declaring the enum is not among the sources); only used by the node ordering. -/
def SpecialNode.rank : SpecialNode → Nat
  | .entryCreation => 0
  | .internalCreationDispatch => 1
  | .entry => 2
  | .internalDispatch => 3

/-- A graph node: a callable declaration (by its AST id, an `int64_t`) or a
special node.  Mirrors the `Node` variant; the variant order (callable first)
is modelled from the spec since the header is not among the sources. -/
inductive Node
  | callable (id : Int)
  | special (s : SpecialNode)
deriving DecidableEq

/-- Index of the alternative held by the variant (`Node::index()`). -/
def Node.variantIndex : Node → Nat
  | .callable _ => 0
  | .special _ => 1

/-- Errors: each constructor stands for one `solAssert` in the source (fatal,
non-recoverable); `outOfFuel` is the fuel-exhaustion artifact of the model. -/
inductive BuildErr
  | identLookupNotVirtual
  | currentNodeUnset
  | superNotSuperContract
  | memberLookupNotStatic
  | modifierLookupNotStatic
  | visitedCallableAgain
  | interfaceEntryNotGetter
  | comparatorSpecialOperand
  | outOfFuel
deriving DecidableEq

/-- `CompareByID::operator()(Node, Node)`: compare variant indices first, then
special nodes by enum order, otherwise declaration ids. -/
def compareByID (l r : Node) : Bool :=
  if l.variantIndex ≠ r.variantIndex then decide (l.variantIndex < r.variantIndex)
  else
    match l, r with
    | .special a, .special b => decide (a.rank < b.rank)
    | .callable a, .callable b => decide (a < b)
    | _, _ => false

/-- `CompareByID::operator()(Node, int64_t)`: asserts the node is not a
special node, then compares its declaration id with the raw id. -/
def compareByIDNodeInt (l : Node) (r : Int) : Except BuildErr Bool :=
  match l with
  | .special _ => .error .comparatorSpecialOperand
  | .callable id => .ok (decide (id < r))

/-- `CompareByID::operator()(int64_t, Node)`: symmetric heterogeneous form. -/
def compareByIDIntNode (l : Int) (r : Node) : Except BuildErr Bool :=
  match r with
  | .special _ => .error .comparatorSpecialOperand
  | .callable id => .ok (decide (l < id))

/-- Declaration kinds relevant to the builder's `dynamic_cast`s. -/
inductive DeclKind
  | functionDef
  | modifierDef
  | eventDef
  | variableDecl
deriving DecidableEq

/-- A referenced declaration: AST id plus its dynamic kind. -/
structure Decl where
  id : Int
  kind : DeclKind
deriving DecidableEq

/-- `dynamic_cast<CallableDeclaration const*>` succeeds exactly for function,
modifier and event definitions. -/
def Decl.isCallable (d : Decl) : Bool :=
  decide (d.kind = .functionDef) || decide (d.kind = .modifierDef) || decide (d.kind = .eventDef)

/-- The `FunctionType::Kind` values the builder distinguishes. -/
inductive FunctionKind
  | internalFun
  | externalFun
  | eventFun
  | otherFun
deriving DecidableEq

/-- Resolved type of an expression, as far as the builder's casts inspect it:
`FunctionType`, `ContractType` (with its contract and `isSuper()` flag),
`TypeType` (with its `actualType()`), or anything else. -/
inductive TypeAnn
  | funType (kind : FunctionKind)
  | contractType (cid : Int) (isSup : Bool)
  | typeType (actual : TypeAnn)
  | otherType
deriving DecidableEq

/-- The `requiredLookup` tag computed by upstream analysis. -/
inductive VirtualLookup
  | virtualLk
  | superLk
  | staticLk
deriving DecidableEq

/-- One reference event fired at the builder's visitor hooks during the
(external) AST traversal of a subtree, carrying exactly the resolved
upstream data the hook reads. -/
inductive Ref
  | ident (refDecl : Option Decl) (lookup : VirtualLookup) (ty : TypeAnn) (calledDirectly : Bool)
  | memberAccess (ty : TypeAnn) (refDecl : Option Decl) (lookup : VirtualLookup)
      (exprTy : TypeAnn) (calledDirectly : Bool)
  | modifierInv (refDecl : Option Decl) (lookup : VirtualLookup)
  | newExpr (typeNameTy : TypeAnn)
deriving DecidableEq

/-- A callable declaration of the compilation unit: its declaration, an
override-group key (same name and signature across the hierarchy), and the
reference events fired while traversing its subtree. -/
structure CallableInfo where
  decl : Decl
  sigKey : Int
  body : List Ref
deriving DecidableEq

/-- A contract of the compilation unit, with the upstream data the builder
reads: linearized bases (most-derived first), state-variable and
inheritance-specifier reference events, optional constructor / fallback /
receive, external interface entries, and the callables it defines. -/
structure ContractInfo where
  cid : Int
  linearized : List Int
  stateVarRefs : List (List Ref)
  baseArgRefs : List (List Ref)
  ctor : Option Int
  fallbackFn : Option Int
  receiveFn : Option Int
  interfaceList : List Decl
  definedFunctions : List Int
deriving DecidableEq

/-- The resolved compilation unit the builder works on. -/
structure Env where
  callables : List CallableInfo
  contracts : List ContractInfo

def Env.findCallable (env : Env) (i : Int) : Option CallableInfo :=
  env.callables.find? fun c => decide (c.decl.id = i)

/-- Reference events fired by `accept` on a callable's subtree. -/
def Env.bodyOf (env : Env) (i : Int) : List Ref :=
  ((env.findCallable i).map CallableInfo.body).getD []

def Env.sigKeyOf (env : Env) (i : Int) : Int :=
  ((env.findCallable i).map CallableInfo.sigKey).getD i

def ContractInfo.empty (cid : Int) : ContractInfo :=
  { cid := cid, linearized := [], stateVarRefs := [], baseArgRefs := [],
    ctor := none, fallbackFn := none, receiveFn := none,
    interfaceList := [], definedFunctions := [] }

def Env.contractOf (env : Env) (cid : Int) : ContractInfo :=
  ((env.contracts.find? fun c => decide (c.cid = cid)).getD (ContractInfo.empty cid))

def Env.linearizedOf (env : Env) (cid : Int) : List Int :=
  (env.contractOf cid).linearized

def Env.definedIn (env : Env) (cid : Int) : List Int :=
  (env.contractOf cid).definedFunctions

/-- Modelled from the spec: `CallableDeclaration::resolveVirtual` (defined in
the AST sources, which are not part of this repository's sources).  Virtual
resolution replaces a callable by the most-derived override in the concrete
contract's linearized base-contract chain; when a search-start contract is
given, the search begins at that contract in the chain instead of at the most
derived one.  Falls back to the callable itself when no override is found. -/
def resolveVirtual (env : Env) (main : Int) (c : Int) (searchStart : Option Int) : Int :=
  let lin := env.linearizedOf main
  let lin' := match searchStart with
    | none => lin
    | some s => lin.dropWhile fun x => decide (x ≠ s)
  let key := env.sigKeyOf c
  match lin'.findSome? (fun ct => (env.definedIn ct).find? fun f => decide (env.sigKeyOf f = key)) with
  | some f => f
  | none => c

/-- Modelled from the spec: `ContractDefinition::superContract` (AST sources,
not part of this repository's sources) — the contract following the given one
in the concrete contract's linearization, i.e. the next base above it. -/
def superContract (env : Env) (main : Int) (c : Int) : Option Int :=
  match (env.linearizedOf main).dropWhile (fun x => decide (x ≠ c)) with
  | [] => none
  | _ :: rest => rest.head?

/-- Successor-set insertion (`std::set::insert`): idempotent. -/
def addSucc (s : List Node) (b : Node) : List Node :=
  if b ∈ s then s else s ++ [b]

/-- Edge-map insertion (`m_graph->edges[_caller].insert(_callee)`): creates
the caller key when absent, otherwise extends its successor set. -/
def addEdge : List (Node × List Node) → Node → Node → List (Node × List Node)
  | [], a, b => [(a, [b])]
  | (k, s) :: rest, a, b =>
    if k = a then (k, addSucc s b) :: rest else (k, s) :: addEdge rest a b

/-- `m_graph->edges.count(n)` as a Bool. -/
def isKey (g : List (Node × List Node)) (n : Node) : Bool :=
  g.any fun p => decide (p.1 = n)

/-- Edge membership in the built edge map. -/
def hasEdge (g : List (Node × List Node)) (a b : Node) : Bool :=
  g.any fun p => decide (p.1 = a) && p.2.any fun q => decide (q = b)

/-- `createdContracts.emplace` (set insertion, idempotent). -/
def addCreated (s : List Int) (c : Int) : List Int :=
  if c ∈ s then s else s ++ [c]

/-- The builder's mutable state: the graph under construction plus the
`m_currentNode` / `m_currentDispatch` traversal context. -/
structure BuilderState where
  edges : List (Node × List Node)
  createdContracts : List Int
  currentNode : Option Node
  currentDispatch : SpecialNode
deriving DecidableEq

/-- `FunctionCallGraphBuilder::add`. -/
def addEdgeSt (st : BuilderState) (a b : Node) : BuilderState :=
  { st with edges := addEdge st.edges a b }

/-- The edges `processFunction` records before its visit check: an edge from
the current node for a direct call, the two dispatch edges for an indirect
one. -/
def processFunctionEdges (st : BuilderState) (c : Int) (direct : Bool) : BuilderState :=
  let st1 := match st.currentNode, direct with
    | some n, true => addEdgeSt st n (.callable c)
    | _, _ => st
  if direct then st1
  else
    addEdgeSt (addEdgeSt st1 (.special st.currentDispatch) (.callable c))
      (.callable c) (.special st.currentDispatch)

/-- Type of the recursive `visitCallable` callback threaded through the
non-recursive cores. -/
abbrev VisitFn := BuilderState → Int → Except BuildErr BuilderState

/-- `FunctionCallGraphBuilder::processFunction`: record the edges for the
reference, then visit the callable unless it is already an edge-map key. -/
def processFunctionCore (visitC : VisitFn) (st : BuilderState) (c : Int) (direct : Bool) :
    Except BuildErr BuilderState :=
  let st2 := processFunctionEdges st c direct
  if isKey st2.edges (.callable c) then .ok st2 else visitC st2 c

/-- `visit(Identifier)`: for a reference to a callable declaration the lookup
tag must be `Virtual`; internal-function references are resolved virtually
against the concrete contract and processed; afterwards the current node must
still be set. -/
def visitIdentCore (env : Env) (main : Int) (visitC : VisitFn) (st : BuilderState)
    (refDecl : Option Decl) (lookup : VirtualLookup) (ty : TypeAnn) (calledDirectly : Bool) :
    Except BuildErr BuilderState :=
  match refDecl with
  | none => .ok st
  | some d =>
    if d.isCallable then
      if lookup ≠ .virtualLk then .error .identLookupNotVirtual
      else
        match ty with
        | .funType .internalFun =>
          match processFunctionCore visitC st (resolveVirtual env main d.id none) calledDirectly with
          | .error e => .error e
          | .ok st' => if st'.currentNode.isSome then .ok st' else .error .currentNodeUnset
        | _ => .ok st
    else .ok st

/-- `endVisit(MemberAccess)`: only internal-function references to function
definitions are processed; a `Super` lookup through a super contract type is
re-resolved from the next base up, a non-`Super` lookup must be `Static`. -/
def endVisitMemberCore (env : Env) (main : Int) (visitC : VisitFn) (st : BuilderState)
    (ty : TypeAnn) (refDecl : Option Decl) (lookup : VirtualLookup)
    (exprTy : TypeAnn) (calledDirectly : Bool) : Except BuildErr BuilderState :=
  match ty, refDecl with
  | .funType k, some d =>
    if decide (d.kind = .functionDef) && decide (k = .internalFun) then
      if lookup = .superLk then
        match exprTy with
        | .typeType (.contractType cid isSup) =>
          if isSup then
            processFunctionCore visitC st
              (resolveVirtual env main d.id (superContract env main cid)) calledDirectly
          else .error .superNotSuperContract
        | _ => processFunctionCore visitC st d.id calledDirectly
      else if lookup = .staticLk then processFunctionCore visitC st d.id calledDirectly
      else .error .memberLookupNotStatic
    else .ok st
  | _, _ => .ok st

/-- `endVisit(ModifierInvocation)`: a reference to a modifier definition is
resolved virtually when tagged `Virtual`, must otherwise be tagged `Static`,
and is always processed as called directly. -/
def endVisitModifierCore (env : Env) (main : Int) (visitC : VisitFn) (st : BuilderState)
    (refDecl : Option Decl) (lookup : VirtualLookup) : Except BuildErr BuilderState :=
  match refDecl with
  | none => .ok st
  | some d =>
    if d.kind = .modifierDef then
      if lookup = .virtualLk then
        processFunctionCore visitC st (resolveVirtual env main d.id none) true
      else if lookup = .staticLk then processFunctionCore visitC st d.id true
      else .error .modifierLookupNotStatic
    else .ok st

/-- `visit(NewExpression)`: an instantiation whose type name has contract type
records the contract into `createdContracts`; no edge is added. -/
def visitNewExprCore (st : BuilderState) (typeNameTy : TypeAnn) : BuilderState :=
  match typeNameTy with
  | .contractType cid _ => { st with createdContracts := addCreated st.createdContracts cid }
  | _ => st

/-- Dispatch of one reference event to the matching visitor hook. -/
def processRefCore (env : Env) (main : Int) (visitC : VisitFn) (st : BuilderState) :
    Ref → Except BuildErr BuilderState
  | .ident rd lk ty direct => visitIdentCore env main visitC st rd lk ty direct
  | .memberAccess ty rd lk ety direct => endVisitMemberCore env main visitC st ty rd lk ety direct
  | .modifierInv rd lk => endVisitModifierCore env main visitC st rd lk
  | .newExpr ty => .ok (visitNewExprCore st ty)

/-- Sequential processing of the reference events of one subtree. -/
def processRefsCore (env : Env) (main : Int) (visitC : VisitFn) :
    BuilderState → List Ref → Except BuildErr BuilderState
  | st, [] => .ok st
  | st, r :: rs =>
    match processRefCore env main visitC st r with
    | .error e => .error e
    | .ok st' => processRefsCore env main visitC st' rs

/-- Processing of a list of subtrees (state variables, inheritance
specifiers). -/
def processRefLists (env : Env) (main : Int) (visitC : VisitFn) :
    BuilderState → List (List Ref) → Except BuildErr BuilderState
  | st, [] => .ok st
  | st, rs :: rest =>
    match processRefsCore env main visitC st rs with
    | .error e => .error e
    | .ok st' => processRefLists env main visitC st' rest

/-- `FunctionCallGraphBuilder::visitCallable`: asserts the callable is not yet
an edge-map key, traverses its subtree with the callable as current node, and
restores the previous current node. -/
def visitCallable (env : Env) (main : Int) : Nat → BuilderState → Int → Except BuildErr BuilderState
  | 0, _, _ => .error .outOfFuel
  | fuel + 1, st, c =>
    if isKey st.edges (.callable c) then .error .visitedCallableAgain
    else
      match processRefsCore env main (fun s i => visitCallable env main fuel s i)
          { st with currentNode := some (.callable c) } (env.bodyOf c) with
      | .error e => .error e
      | .ok st' => .ok { st' with currentNode := st.currentNode }

/-- One iteration of the creation-phase loop (lines 36-50): state variables,
inheritance-specifier arguments, then — when the contract has a constructor —
an edge from the current node to the constructor, a traversal of the
constructor's subtree (`accept`, which leaves the current node unchanged), and
finally the advance of the current node to the constructor. -/
def buildPhase1Contract (env : Env) (main : Int) (visitC : VisitFn) (st : BuilderState)
    (ci : ContractInfo) : Except BuildErr BuilderState :=
  match processRefLists env main visitC st ci.stateVarRefs with
  | .error e => .error e
  | .ok st1 =>
    match processRefLists env main visitC st1 ci.baseArgRefs with
    | .error e => .error e
    | .ok st2 =>
      match ci.ctor with
      | none => .ok st2
      | some k =>
        match st2.currentNode with
        | none => .error .currentNodeUnset
        | some n =>
          match processRefsCore env main visitC (addEdgeSt st2 n (.callable k)) (env.bodyOf k) with
          | .error e => .error e
          | .ok st3 => .ok { st3 with currentNode := some (.callable k) }

/-- The creation-phase loop over the reversed linearization. -/
def buildPhase1List (env : Env) (main : Int) (visitC : VisitFn) :
    BuilderState → List Int → Except BuildErr BuilderState
  | st, [] => .ok st
  | st, cid :: rest =>
    match buildPhase1Contract env main visitC st (env.contractOf cid) with
    | .error e => .error e
    | .ok st' => buildPhase1List env main visitC st' rest

/-- One interface entry (lines 58-71): a function definition is visited when
not yet a key and then unconditionally wired from `Entry`; a public-variable
getter is skipped; anything else fails the assertion. -/
def processInterfaceEntry (env : Env) (main : Int) (visitC : VisitFn) (st : BuilderState)
    (d : Decl) : Except BuildErr BuilderState :=
  if d.kind = .functionDef then
    match (if isKey st.edges (.callable d.id) then .ok st else visitC st d.id :
        Except BuildErr BuilderState) with
    | .error e => .error e
    | .ok st1 => .ok (addEdgeSt st1 (.special .entry) (.callable d.id))
  else if d.kind = .variableDecl then .ok st
  else .error .interfaceEntryNotGetter

/-- The runtime-phase loop over the external interface. -/
def buildPhase2List (env : Env) (main : Int) (visitC : VisitFn) :
    BuilderState → List Decl → Except BuildErr BuilderState
  | st, [] => .ok st
  | st, d :: rest =>
    match processInterfaceEntry env main visitC st d with
    | .error e => .error e
    | .ok st' => buildPhase2List env main visitC st' rest

/-- The whole construction (`FunctionCallGraphBuilder::FunctionCallGraphBuilder`):
creation phase over the reversed linearization, phase switch, runtime phase
over the interface, the fixed `InternalDispatch → InternalCreationDispatch`
edge, and the fallback / receive wiring. -/
def build (env : Env) (main : Int) (fuel : Nat) : Except BuildErr BuilderState :=
  let mc := env.contractOf main
  let visitC : VisitFn := fun st c => visitCallable env main fuel st c
  let st0 : BuilderState :=
    { edges := [], createdContracts := [],
      currentNode := some (.special .entryCreation),
      currentDispatch := .internalCreationDispatch }
  match buildPhase1List env main visitC st0 mc.linearized.reverse with
  | .error e => .error e
  | .ok st1 =>
    let st2 := { st1 with currentNode := none, currentDispatch := SpecialNode.internalDispatch }
    match buildPhase2List env main visitC st2 mc.interfaceList with
    | .error e => .error e
    | .ok st3 =>
      let st4 := addEdgeSt st3 (.special .internalDispatch) (.special .internalCreationDispatch)
      let st5 := match mc.fallbackFn with
        | some fb => addEdgeSt st4 (.special .entry) (.callable fb)
        | none => st4
      let st6 := match mc.receiveFn with
        | some rc => addEdgeSt st5 (.special .entry) (.callable rc)
        | none => st5
      .ok { st6 with currentNode := none }

/-! Concrete compilation units used to settle the scenario-shaped claims. -/

/-- Contract A (cid 0, no inheritance): constructor (id 100) whose body
directly calls the internal function f (id 10); f has an empty body. -/
def envC1 : Env :=
  { callables :=
      [ { decl := ⟨100, .functionDef⟩, sigKey := 100,
          body := [Ref.ident (some ⟨10, .functionDef⟩) .virtualLk (.funType .internalFun) true] },
        { decl := ⟨10, .functionDef⟩, sigKey := 10, body := [] } ],
    contracts :=
      [ { cid := 0, linearized := [0], stateVarRefs := [], baseArgRefs := [],
          ctor := some 100, fallbackFn := none, receiveFn := none,
          interfaceList := [], definedFunctions := [10] } ] }

/-- The graph the builder produces for `envC1`. -/
def stC1 : BuilderState :=
  { edges := [(.special .entryCreation, [.callable 100, .callable 10]),
      (.special .internalDispatch, [.special .internalCreationDispatch])],
    createdContracts := [], currentNode := none, currentDispatch := .internalDispatch }

/-- Like `envC1` but f (id 10) itself directly calls g (id 11), so f gains an
outgoing edge. -/
def envC1b : Env :=
  { callables :=
      [ { decl := ⟨100, .functionDef⟩, sigKey := 100,
          body := [Ref.ident (some ⟨10, .functionDef⟩) .virtualLk (.funType .internalFun) true] },
        { decl := ⟨10, .functionDef⟩, sigKey := 10,
          body := [Ref.ident (some ⟨11, .functionDef⟩) .virtualLk (.funType .internalFun) true] },
        { decl := ⟨11, .functionDef⟩, sigKey := 11, body := [] } ],
    contracts :=
      [ { cid := 0, linearized := [0], stateVarRefs := [], baseArgRefs := [],
          ctor := some 100, fallbackFn := none, receiveFn := none,
          interfaceList := [], definedFunctions := [10, 11] } ] }

/-- The graph the builder produces for `envC1b`. -/
def stC1b : BuilderState :=
  { edges := [(.special .entryCreation, [.callable 100, .callable 10]),
      (.callable 10, [.callable 11]),
      (.special .internalDispatch, [.special .internalCreationDispatch])],
    createdContracts := [], currentNode := none, currentDispatch := .internalDispatch }

/-- Base A (cid 1) declares virtual f (id 10, group 100); derived B (cid 2)
overrides f (id 20, group 100) and defines external h (id 30) whose body
contains a plain call to f and an explicit super-call to f. -/
def envC3 : Env :=
  { callables :=
      [ { decl := ⟨10, .functionDef⟩, sigKey := 100, body := [] },
        { decl := ⟨20, .functionDef⟩, sigKey := 100, body := [] },
        { decl := ⟨30, .functionDef⟩, sigKey := 300,
          body :=
            [ Ref.ident (some ⟨20, .functionDef⟩) .virtualLk (.funType .internalFun) true,
              Ref.memberAccess (.funType .internalFun) (some ⟨20, .functionDef⟩) .superLk
                (.typeType (.contractType 2 true)) true ] } ],
    contracts :=
      [ { cid := 1, linearized := [1], stateVarRefs := [], baseArgRefs := [],
          ctor := none, fallbackFn := none, receiveFn := none,
          interfaceList := [], definedFunctions := [10] },
        { cid := 2, linearized := [2, 1], stateVarRefs := [], baseArgRefs := [],
          ctor := none, fallbackFn := none, receiveFn := none,
          interfaceList := [⟨30, .functionDef⟩], definedFunctions := [20, 30] } ] }

/-- The graph the builder produces for `envC3` on concrete contract B. -/
def stC3 : BuilderState :=
  { edges := [(.callable 30, [.callable 20, .callable 10]),
      (.special .entry, [.callable 30]),
      (.special .internalDispatch, [.special .internalCreationDispatch])],
    createdContracts := [], currentNode := none, currentDispatch := .internalDispatch }

/-- A single empty contract: no callables at all. -/
def envTrivial : Env :=
  { callables := [],
    contracts :=
      [ { cid := 0, linearized := [0], stateVarRefs := [], baseArgRefs := [],
          ctor := none, fallbackFn := none, receiveFn := none,
          interfaceList := [], definedFunctions := [] } ] }

/-- The graph for the empty contract: exactly the fixed bridging edge. -/
def stTrivial : BuilderState :=
  { edges := [(.special .internalDispatch, [.special .internalCreationDispatch])],
    createdContracts := [], currentNode := none, currentDispatch := .internalDispatch }

/-- External function h (id 30) contains a Super-tagged member access to f
(id 77) whose qualifying expression type is not a contract type. -/
def envC9 : Env :=
  { callables :=
      [ { decl := ⟨30, .functionDef⟩, sigKey := 300,
          body := [Ref.memberAccess (.funType .internalFun) (some ⟨77, .functionDef⟩) .superLk
            .otherType true] },
        { decl := ⟨77, .functionDef⟩, sigKey := 77, body := [] } ],
    contracts :=
      [ { cid := 0, linearized := [0], stateVarRefs := [], baseArgRefs := [],
          ctor := none, fallbackFn := none, receiveFn := none,
          interfaceList := [⟨30, .functionDef⟩], definedFunctions := [30, 77] } ] }

/-- The graph the builder produces for `envC9`: no assertion fires. -/
def stC9 : BuilderState :=
  { edges := [(.callable 30, [.callable 77]),
      (.special .entry, [.callable 30]),
      (.special .internalDispatch, [.special .internalCreationDispatch])],
    createdContracts := [], currentNode := none, currentDispatch := .internalDispatch }

/-- Interface with a function (id 40) and a public-variable getter (id 41);
fallback function id 50, receive function id 51. -/
def envC6 : Env :=
  { callables :=
      [ { decl := ⟨40, .functionDef⟩, sigKey := 40, body := [] },
        { decl := ⟨50, .functionDef⟩, sigKey := 50, body := [] },
        { decl := ⟨51, .functionDef⟩, sigKey := 51, body := [] } ],
    contracts :=
      [ { cid := 0, linearized := [0], stateVarRefs := [], baseArgRefs := [],
          ctor := none, fallbackFn := some 50, receiveFn := some 51,
          interfaceList := [⟨40, .functionDef⟩, ⟨41, .variableDecl⟩],
          definedFunctions := [40, 50, 51] } ] }

/-- The graph the builder produces for `envC6`. -/
def stC6 : BuilderState :=
  { edges := [(.special .entry, [.callable 40, .callable 50, .callable 51]),
      (.special .internalDispatch, [.special .internalCreationDispatch])],
    createdContracts := [], currentNode := none, currentDispatch := .internalDispatch }

/-- A state in which callable 40 is already an edge-map key. -/
def stKeyed40 : BuilderState :=
  { edges := [(.callable 40, [.callable 40])], createdContracts := [],
    currentNode := none, currentDispatch := .internalDispatch }

/-- Mutual recursion: external a (id 1) directly calls b (id 2), whose body
directly calls a back. -/
def envMutual : Env :=
  { callables :=
      [ { decl := ⟨1, .functionDef⟩, sigKey := 1,
          body := [Ref.ident (some ⟨2, .functionDef⟩) .virtualLk (.funType .internalFun) true] },
        { decl := ⟨2, .functionDef⟩, sigKey := 2,
          body := [Ref.ident (some ⟨1, .functionDef⟩) .virtualLk (.funType .internalFun) true] } ],
    contracts :=
      [ { cid := 0, linearized := [0], stateVarRefs := [], baseArgRefs := [],
          ctor := none, fallbackFn := none, receiveFn := none,
          interfaceList := [⟨1, .functionDef⟩], definedFunctions := [1, 2] } ] }

/-- The graph the builder produces for `envMutual`. -/
def stMutual : BuilderState :=
  { edges := [(.callable 1, [.callable 2]), (.callable 2, [.callable 1]),
      (.special .entry, [.callable 1]),
      (.special .internalDispatch, [.special .internalCreationDispatch])],
    createdContracts := [], currentNode := none, currentDispatch := .internalDispatch }

/-! Basic lemmas about the edge map. -/

theorem mem_addSucc (s : List Node) (b x : Node) : x ∈ addSucc s b ↔ x ∈ s ∨ x = b := by
  unfold addSucc
  split
  · rename_i h
    constructor
    · exact Or.inl
    · rintro (hx | rfl)
      · exact hx
      · exact h
  · simp [List.mem_append]

theorem hasEdge_cons (p : Node × List Node) (g : List (Node × List Node)) (x y : Node) :
    hasEdge (p :: g) x y = true ↔ (p.1 = x ∧ y ∈ p.2) ∨ hasEdge g x y = true := by
  simp [hasEdge, List.any_cons, Bool.and_eq_true, List.any_eq_true, decide_eq_true_iff]

theorem isKey_cons (p : Node × List Node) (g : List (Node × List Node)) (n : Node) :
    isKey (p :: g) n = true ↔ p.1 = n ∨ isKey g n = true := by
  simp [isKey, List.any_cons, decide_eq_true_iff]

theorem hasEdge_nil (x y : Node) : hasEdge [] x y = false := rfl

theorem isKey_nil (n : Node) : isKey [] n = false := rfl

theorem hasEdge_addEdge (g : List (Node × List Node)) (a b x y : Node) :
    hasEdge (addEdge g a b) x y = true ↔ hasEdge g x y = true ∨ (x = a ∧ y = b) := by
  induction g with
  | nil =>
    rw [show addEdge [] a b = [(a, [b])] from rfl, hasEdge_cons]
    simp [hasEdge_nil, eq_comm, and_comm]
  | cons p rest ih =>
    obtain ⟨k, s⟩ := p
    by_cases hk : k = a
    · subst hk
      rw [show addEdge ((k, s) :: rest) k b = (k, addSucc s b) :: rest from by
        simp [addEdge]]
      rw [hasEdge_cons, hasEdge_cons]
      simp only [mem_addSucc]
      tauto
    · rw [show addEdge ((k, s) :: rest) a b = (k, s) :: addEdge rest a b from by
        simp [addEdge, hk]]
      rw [hasEdge_cons, hasEdge_cons, ih]
      tauto

theorem isKey_addEdge (g : List (Node × List Node)) (a b n : Node) :
    isKey (addEdge g a b) n = true ↔ isKey g n = true ∨ n = a := by
  induction g with
  | nil =>
    rw [show addEdge [] a b = [(a, [b])] from rfl, isKey_cons]
    simp [isKey_nil, eq_comm]
  | cons p rest ih =>
    obtain ⟨k, s⟩ := p
    by_cases hk : k = a
    · subst hk
      rw [show addEdge ((k, s) :: rest) k b = (k, addSucc s b) :: rest from by
        simp [addEdge]]
      rw [isKey_cons, isKey_cons]
      tauto
    · rw [show addEdge ((k, s) :: rest) a b = (k, s) :: addEdge rest a b from by
        simp [addEdge, hk]]
      rw [isKey_cons, isKey_cons, ih]
      tauto

theorem hasEdge_addEdge_self (g : List (Node × List Node)) (a b : Node) :
    hasEdge (addEdge g a b) a b = true :=
  (hasEdge_addEdge g a b a b).mpr (Or.inr ⟨rfl, rfl⟩)

theorem isKey_addEdge_self (g : List (Node × List Node)) (a b : Node) :
    isKey (addEdge g a b) a = true :=
  (isKey_addEdge g a b a).mpr (Or.inr rfl)

theorem keys_addEdge_nodup (g : List (Node × List Node)) (a b : Node)
    (h : (g.map Prod.fst).Nodup) : ((addEdge g a b).map Prod.fst).Nodup := by
  induction g with
  | nil => simp [addEdge]
  | cons p rest ih =>
    obtain ⟨k, s⟩ := p
    simp only [List.map_cons, List.nodup_cons] at h
    by_cases hk : k = a
    · subst hk
      simpa [addEdge] using h
    · simp only [addEdge, if_neg hk, List.map_cons, List.nodup_cons]
      refine ⟨fun hmem => ?_, ih h.2⟩
      have : k ∈ (addEdge rest a b).map Prod.fst → k ∈ rest.map Prod.fst := by
        intro hm
        have hkey : isKey (addEdge rest a b) k = true := by
          simp only [isKey, List.any_eq_true, decide_eq_true_iff]
          obtain ⟨q, hq, hq1⟩ := List.mem_map.mp hm
          exact ⟨q, hq, hq1⟩
        rcases (isKey_addEdge rest a b k).mp hkey with hkr | rfl
        · simp only [isKey, List.any_eq_true, decide_eq_true_iff] at hkr
          obtain ⟨q, hq, hq1⟩ := hkr
          exact List.mem_map.mpr ⟨q, hq, hq1⟩
        · exact absurd rfl hk
      exact h.1 (this hmem)

theorem mem_addCreated (s : List Int) (c x : Int) : x ∈ addCreated s c ↔ x ∈ s ∨ x = c := by
  unfold addCreated
  split
  · rename_i h
    constructor
    · exact Or.inl
    · rintro (hx | rfl)
      · exact hx
      · exact h
  · simp [List.mem_append]

theorem mem_addCreated_self (s : List Int) (c : Int) : c ∈ addCreated s c :=
  (mem_addCreated s c c).mpr (Or.inr rfl)

/-! Preservation: every builder step only grows the graph and the
created-contract set, restores the traversal context, and keeps edge-map
keys unique. -/

/-- Graph components of preservation (context-independent). -/
def GPres (s t : BuilderState) : Prop :=
  (∀ a b, hasEdge s.edges a b = true → hasEdge t.edges a b = true) ∧
  (∀ n, isKey s.edges n = true → isKey t.edges n = true) ∧
  (∀ c, c ∈ s.createdContracts → c ∈ t.createdContracts) ∧
  ((s.edges.map Prod.fst).Nodup → (t.edges.map Prod.fst).Nodup)

/-- Full preservation: graph growth plus restored traversal context. -/
def Pres (s t : BuilderState) : Prop :=
  GPres s t ∧ t.currentNode = s.currentNode ∧ t.currentDispatch = s.currentDispatch

theorem gpres_refl (s : BuilderState) : GPres s s :=
  ⟨fun _ _ h => h, fun _ h => h, fun _ h => h, fun h => h⟩

theorem gpres_trans {s t u : BuilderState} (h1 : GPres s t) (h2 : GPres t u) : GPres s u :=
  ⟨fun a b h => h2.1 a b (h1.1 a b h), fun n h => h2.2.1 n (h1.2.1 n h),
   fun c h => h2.2.2.1 c (h1.2.2.1 c h), fun h => h2.2.2.2 (h1.2.2.2 h)⟩

theorem pres_refl (s : BuilderState) : Pres s s := ⟨gpres_refl s, rfl, rfl⟩

theorem pres_trans {s t u : BuilderState} (h1 : Pres s t) (h2 : Pres t u) : Pres s u :=
  ⟨gpres_trans h1.1 h2.1, h2.2.1.trans h1.2.1, h2.2.2.trans h1.2.2⟩

theorem pres_addEdgeSt (st : BuilderState) (a b : Node) : Pres st (addEdgeSt st a b) := by
  refine ⟨⟨fun x y h => ?_, fun n h => ?_, fun c h => h, fun h => ?_⟩, rfl, rfl⟩
  · exact (hasEdge_addEdge st.edges a b x y).mpr (Or.inl h)
  · exact (isKey_addEdge st.edges a b n).mpr (Or.inl h)
  · exact keys_addEdge_nodup st.edges a b h

theorem pres_processFunctionEdges (st : BuilderState) (c : Int) (direct : Bool) :
    Pres st (processFunctionEdges st c direct) := by
  unfold processFunctionEdges
  cases hn : st.currentNode with
  | none =>
    cases direct with
    | false =>
      exact pres_trans (pres_addEdgeSt _ _ _) (pres_addEdgeSt _ _ _)
    | true => exact pres_refl st
  | some n =>
    cases direct with
    | false =>
      exact pres_trans (pres_addEdgeSt _ _ _) (pres_addEdgeSt _ _ _)
    | true => exact pres_addEdgeSt _ _ _

/-- The recursive-visit callback preserves states on success. -/
def MonoV (visitC : VisitFn) : Prop :=
  ∀ st c st', visitC st c = .ok st' → Pres st st'

theorem pres_processFunctionCore {visitC : VisitFn} (hv : MonoV visitC)
    (st : BuilderState) (c : Int) (direct : Bool) {st' : BuilderState}
    (h : processFunctionCore visitC st c direct = .ok st') : Pres st st' := by
  simp only [processFunctionCore] at h
  by_cases hk : isKey (processFunctionEdges st c direct).edges (.callable c) = true
  · rw [if_pos hk] at h
    cases h
    exact pres_processFunctionEdges st c direct
  · rw [if_neg hk] at h
    exact pres_trans (pres_processFunctionEdges st c direct) (hv _ _ _ h)

theorem pres_visitIdentCore {env : Env} {main : Int} {visitC : VisitFn} (hv : MonoV visitC)
    (st : BuilderState) (rd : Option Decl) (lk : VirtualLookup) (ty : TypeAnn) (cd : Bool)
    {st' : BuilderState} (h : visitIdentCore env main visitC st rd lk ty cd = .ok st') :
    Pres st st' := by
  cases rd with
  | none =>
    simp only [visitIdentCore] at h
    cases h
    exact pres_refl _
  | some d =>
    simp only [visitIdentCore] at h
    by_cases hc : d.isCallable = true
    · rw [if_pos hc] at h
      by_cases hlk : lk ≠ VirtualLookup.virtualLk
      · rw [if_pos hlk] at h
        exact absurd h (by simp)
      · rw [if_neg hlk] at h
        cases ty with
        | funType k =>
          cases k with
          | internalFun =>
            simp only at h
            cases hpf : processFunctionCore visitC st (resolveVirtual env main d.id none) cd with
            | error e =>
              rw [hpf] at h
              exact absurd h (by simp)
            | ok st1 =>
              rw [hpf] at h
              simp only at h
              by_cases hs : st1.currentNode.isSome = true
              · rw [if_pos hs] at h
                cases h
                exact pres_processFunctionCore hv _ _ _ hpf
              · rw [if_neg hs] at h
                exact absurd h (by simp)
          | externalFun => simp only at h; cases h; exact pres_refl _
          | eventFun => simp only at h; cases h; exact pres_refl _
          | otherFun => simp only at h; cases h; exact pres_refl _
        | contractType cid isSup => simp only at h; cases h; exact pres_refl _
        | typeType actual => simp only at h; cases h; exact pres_refl _
        | otherType => simp only at h; cases h; exact pres_refl _
    · rw [if_neg hc] at h
      cases h
      exact pres_refl _

theorem pres_endVisitMemberCore {env : Env} {main : Int} {visitC : VisitFn} (hv : MonoV visitC)
    (st : BuilderState) (ty : TypeAnn) (rd : Option Decl) (lk : VirtualLookup)
    (ety : TypeAnn) (cd : Bool) {st' : BuilderState}
    (h : endVisitMemberCore env main visitC st ty rd lk ety cd = .ok st') : Pres st st' := by
  unfold endVisitMemberCore at h
  split at h
  case h_2 => cases h; exact pres_refl _
  case h_1 k d =>
    by_cases hg : (decide (d.kind = DeclKind.functionDef) && decide (k = FunctionKind.internalFun)) = true
    · rw [if_pos hg] at h
      by_cases hlk : lk = VirtualLookup.superLk
      · rw [if_pos hlk] at h
        cases hety : ety with
        | typeType actual =>
          cases hact : actual with
          | contractType cid isSup =>
            rw [hety, hact] at h
            simp only at h
            cases isSup with
            | true =>
              simp only [if_pos rfl] at h
              exact pres_processFunctionCore hv _ _ _ h
            | false => exact absurd h (by simp)
          | funType k2 => rw [hety, hact] at h; exact pres_processFunctionCore hv _ _ _ h
          | typeType a2 => rw [hety, hact] at h; exact pres_processFunctionCore hv _ _ _ h
          | otherType => rw [hety, hact] at h; exact pres_processFunctionCore hv _ _ _ h
        | funType k2 => rw [hety] at h; exact pres_processFunctionCore hv _ _ _ h
        | contractType cid isSup => rw [hety] at h; exact pres_processFunctionCore hv _ _ _ h
        | otherType => rw [hety] at h; exact pres_processFunctionCore hv _ _ _ h
      · rw [if_neg hlk] at h
        by_cases hlk2 : lk = VirtualLookup.staticLk
        · rw [if_pos hlk2] at h
          exact pres_processFunctionCore hv _ _ _ h
        · rw [if_neg hlk2] at h
          exact absurd h (by simp)
    · rw [if_neg hg] at h
      cases h
      exact pres_refl _

theorem pres_endVisitModifierCore {env : Env} {main : Int} {visitC : VisitFn} (hv : MonoV visitC)
    (st : BuilderState) (rd : Option Decl) (lk : VirtualLookup) {st' : BuilderState}
    (h : endVisitModifierCore env main visitC st rd lk = .ok st') : Pres st st' := by
  cases rd with
  | none =>
    simp only [endVisitModifierCore] at h
    cases h
    exact pres_refl _
  | some d =>
    simp only [endVisitModifierCore] at h
    by_cases hm : d.kind = DeclKind.modifierDef
    · rw [if_pos hm] at h
      by_cases hlk : lk = VirtualLookup.virtualLk
      · rw [if_pos hlk] at h
        exact pres_processFunctionCore hv _ _ _ h
      · rw [if_neg hlk] at h
        by_cases hlk2 : lk = VirtualLookup.staticLk
        · rw [if_pos hlk2] at h
          exact pres_processFunctionCore hv _ _ _ h
        · rw [if_neg hlk2] at h
          exact absurd h (by simp)
    · rw [if_neg hm] at h
      cases h
      exact pres_refl _

theorem pres_visitNewExprCore (st : BuilderState) (ty : TypeAnn) :
    Pres st (visitNewExprCore st ty) := by
  unfold visitNewExprCore
  split
  · refine ⟨⟨fun a b h => h, fun n h => h, fun c h => ?_, fun h => h⟩, rfl, rfl⟩
    exact (mem_addCreated _ _ _).mpr (Or.inl h)
  · exact pres_refl st

theorem pres_processRefCore {env : Env} {main : Int} {visitC : VisitFn} (hv : MonoV visitC)
    (st : BuilderState) (r : Ref) {st' : BuilderState}
    (h : processRefCore env main visitC st r = .ok st') : Pres st st' := by
  cases r with
  | ident rd lk ty cd => exact pres_visitIdentCore hv st rd lk ty cd h
  | memberAccess ty rd lk ety cd => exact pres_endVisitMemberCore hv st ty rd lk ety cd h
  | modifierInv rd lk => exact pres_endVisitModifierCore hv st rd lk h
  | newExpr ty =>
    exact (Except.ok.injEq _ _).mp h ▸ pres_visitNewExprCore st ty

theorem pres_processRefsCore {env : Env} {main : Int} {visitC : VisitFn} (hv : MonoV visitC) :
    ∀ (refs : List Ref) (st : BuilderState) {st' : BuilderState},
      processRefsCore env main visitC st refs = .ok st' → Pres st st' := by
  intro refs
  induction refs with
  | nil =>
    intro st st' h
    exact (Except.ok.injEq _ _).mp h ▸ pres_refl st
  | cons r rs ih =>
    intro st st' h
    unfold processRefsCore at h
    cases hr : processRefCore env main visitC st r with
    | error e => rw [hr] at h; exact absurd h (by simp)
    | ok st1 =>
      rw [hr] at h
      exact pres_trans (pres_processRefCore hv st r hr) (ih st1 h)

theorem pres_processRefLists {env : Env} {main : Int} {visitC : VisitFn} (hv : MonoV visitC) :
    ∀ (rss : List (List Ref)) (st : BuilderState) {st' : BuilderState},
      processRefLists env main visitC st rss = .ok st' → Pres st st' := by
  intro rss
  induction rss with
  | nil =>
    intro st st' h
    exact (Except.ok.injEq _ _).mp h ▸ pres_refl st
  | cons rs rest ih =>
    intro st st' h
    unfold processRefLists at h
    cases hr : processRefsCore env main visitC st rs with
    | error e => rw [hr] at h; exact absurd h (by simp)
    | ok st1 =>
      rw [hr] at h
      exact pres_trans (pres_processRefsCore hv rs st hr) (ih st1 h)

theorem pres_visitCallable (env : Env) (main : Int) :
    ∀ fuel : Nat, MonoV (fun st c => visitCallable env main fuel st c) := by
  intro fuel
  induction fuel with
  | zero =>
    intro st c st' h
    exact absurd h (by simp [visitCallable])
  | succ f ih =>
    intro st c st' h
    unfold visitCallable at h
    split at h
    · exact absurd h (by simp)
    · cases hr : processRefsCore env main (fun s i => visitCallable env main f s i)
          { st with currentNode := some (.callable c) } (env.bodyOf c) with
      | error e => rw [hr] at h; exact absurd h (by simp)
      | ok st1 =>
        rw [hr] at h
        have hp := pres_processRefsCore ih (env.bodyOf c) _ hr
        have hst' : st' = { st1 with currentNode := st.currentNode } :=
          ((Except.ok.injEq _ _).mp h).symm
        subst hst'
        exact ⟨hp.1, rfl, hp.2.2⟩

theorem gpres_same {s t : BuilderState} (h1 : t.edges = s.edges)
    (h2 : t.createdContracts = s.createdContracts) : GPres s t :=
  ⟨fun a b h => h1 ▸ h, fun n h => h1 ▸ h, fun c h => h2 ▸ h, fun h => h1 ▸ h⟩

theorem gpres_buildPhase1Contract {env : Env} {main : Int} {visitC : VisitFn} (hv : MonoV visitC)
    (st : BuilderState) (ci : ContractInfo) {st' : BuilderState}
    (h : buildPhase1Contract env main visitC st ci = .ok st') : GPres st st' := by
  unfold buildPhase1Contract at h
  cases h1 : processRefLists env main visitC st ci.stateVarRefs with
  | error e => rw [h1] at h; exact absurd h (by simp)
  | ok st1 =>
    rw [h1] at h
    simp only at h
    have g1 : GPres st st1 := (pres_processRefLists hv _ _ h1).1
    cases h2 : processRefLists env main visitC st1 ci.baseArgRefs with
    | error e => rw [h2] at h; exact absurd h (by simp)
    | ok st2 =>
      rw [h2] at h
      simp only at h
      have g2 : GPres st st2 := gpres_trans g1 (pres_processRefLists hv _ _ h2).1
      cases hctor : ci.ctor with
      | none =>
        rw [hctor] at h
        cases h
        exact g2
      | some k =>
        rw [hctor] at h
        simp only at h
        cases hcn : st2.currentNode with
        | none => rw [hcn] at h; exact absurd h (by simp)
        | some n =>
          rw [hcn] at h
          simp only at h
          cases h3 : processRefsCore env main visitC (addEdgeSt st2 n (.callable k))
              (env.bodyOf k) with
          | error e => rw [h3] at h; exact absurd h (by simp)
          | ok st3 =>
            rw [h3] at h
            simp only at h
            cases h
            exact gpres_trans g2 (gpres_trans (pres_addEdgeSt st2 n (.callable k)).1
              (gpres_trans (pres_processRefsCore hv _ _ h3).1 (gpres_same rfl rfl)))

theorem gpres_buildPhase1List {env : Env} {main : Int} {visitC : VisitFn} (hv : MonoV visitC) :
    ∀ (cids : List Int) (st : BuilderState) {st' : BuilderState},
      buildPhase1List env main visitC st cids = .ok st' → GPres st st' := by
  intro cids
  induction cids with
  | nil =>
    intro st st' h
    cases h
    exact gpres_refl _
  | cons cid rest ih =>
    intro st st' h
    unfold buildPhase1List at h
    cases h1 : buildPhase1Contract env main visitC st (env.contractOf cid) with
    | error e => rw [h1] at h; exact absurd h (by simp)
    | ok st1 =>
      rw [h1] at h
      exact gpres_trans (gpres_buildPhase1Contract hv st _ h1) (ih st1 h)

theorem gpres_processInterfaceEntry {env : Env} {main : Int} {visitC : VisitFn}
    (hv : MonoV visitC) (st : BuilderState) (d : Decl) {st' : BuilderState}
    (h : processInterfaceEntry env main visitC st d = .ok st') : GPres st st' := by
  unfold processInterfaceEntry at h
  by_cases hf : d.kind = DeclKind.functionDef
  · rw [if_pos hf] at h
    by_cases hk : isKey st.edges (.callable d.id) = true
    · rw [if_pos hk] at h
      simp only at h
      cases h
      exact (pres_addEdgeSt st _ _).1
    · rw [if_neg hk] at h
      cases hvc : visitC st d.id with
      | error e => rw [hvc] at h; exact absurd h (by simp)
      | ok st1 =>
        rw [hvc] at h
        simp only at h
        cases h
        exact gpres_trans (hv _ _ _ hvc).1 (pres_addEdgeSt st1 _ _).1
  · rw [if_neg hf] at h
    by_cases hvr : d.kind = DeclKind.variableDecl
    · rw [if_pos hvr] at h
      cases h
      exact gpres_refl _
    · rw [if_neg hvr] at h
      exact absurd h (by simp)

theorem gpres_buildPhase2List {env : Env} {main : Int} {visitC : VisitFn} (hv : MonoV visitC) :
    ∀ (ds : List Decl) (st : BuilderState) {st' : BuilderState},
      buildPhase2List env main visitC st ds = .ok st' → GPres st st' := by
  intro ds
  induction ds with
  | nil =>
    intro st st' h
    cases h
    exact gpres_refl _
  | cons d rest ih =>
    intro st st' h
    unfold buildPhase2List at h
    cases h1 : processInterfaceEntry env main visitC st d with
    | error e => rw [h1] at h; exact absurd h (by simp)
    | ok st1 =>
      rw [h1] at h
      exact gpres_trans (gpres_processInterfaceEntry hv st d h1) (ih st1 h)

/-! No-revisit: `visitCallable` is reached only through the "not yet an
edge-map key" guard, so its entry assertion never fires during a build. -/

/-- The recursive-visit callback never fails its own entry assertion when
called on a callable that is not yet an edge-map key. -/
def NRV (visitC : VisitFn) : Prop :=
  ∀ st c, isKey st.edges (.callable c) = false → visitC st c ≠ .error .visitedCallableAgain

theorem nr_processFunctionCore {visitC : VisitFn} (hnr : NRV visitC)
    (st : BuilderState) (c : Int) (direct : Bool) :
    processFunctionCore visitC st c direct ≠ .error .visitedCallableAgain := by
  simp only [processFunctionCore]
  by_cases hk : isKey (processFunctionEdges st c direct).edges (.callable c) = true
  · rw [if_pos hk]
    simp
  · rw [if_neg hk]
    exact hnr _ c (Bool.not_eq_true _ ▸ hk)

theorem nr_visitIdentCore {env : Env} {main : Int} {visitC : VisitFn} (hnr : NRV visitC)
    (st : BuilderState) (rd : Option Decl) (lk : VirtualLookup) (ty : TypeAnn) (cd : Bool) :
    visitIdentCore env main visitC st rd lk ty cd ≠ .error .visitedCallableAgain := by
  cases rd with
  | none => simp [visitIdentCore]
  | some d =>
    simp only [visitIdentCore]
    by_cases hc : d.isCallable = true
    · rw [if_pos hc]
      by_cases hlk : lk ≠ VirtualLookup.virtualLk
      · rw [if_pos hlk]
        simp
      · rw [if_neg hlk]
        cases ty with
        | funType k =>
          cases k with
          | internalFun =>
            simp only
            cases hpf : processFunctionCore visitC st (resolveVirtual env main d.id none) cd with
            | error e =>
              have h2 := nr_processFunctionCore hnr st (resolveVirtual env main d.id none) cd
              rw [hpf] at h2
              simp only
              exact h2
            | ok st1 =>
              simp only
              by_cases hs : st1.currentNode.isSome = true
              · rw [if_pos hs]; simp
              · rw [if_neg hs]; simp
          | externalFun => simp
          | eventFun => simp
          | otherFun => simp
        | contractType cid isSup => simp
        | typeType actual => simp
        | otherType => simp
    · rw [if_neg hc]
      simp

theorem nr_endVisitMemberCore {env : Env} {main : Int} {visitC : VisitFn} (hnr : NRV visitC)
    (st : BuilderState) (ty : TypeAnn) (rd : Option Decl) (lk : VirtualLookup)
    (ety : TypeAnn) (cd : Bool) :
    endVisitMemberCore env main visitC st ty rd lk ety cd ≠ .error .visitedCallableAgain := by
  unfold endVisitMemberCore
  split
  case h_2 => simp
  case h_1 k d =>
    by_cases hg : (decide (d.kind = DeclKind.functionDef) && decide (k = FunctionKind.internalFun)) = true
    · rw [if_pos hg]
      by_cases hlk : lk = VirtualLookup.superLk
      · rw [if_pos hlk]
        cases ety with
        | typeType actual =>
          cases actual with
          | contractType cid isSup =>
            simp only
            cases isSup with
            | true => simp only [if_pos rfl]; exact nr_processFunctionCore hnr st _ cd
            | false => simp
          | funType k2 => exact nr_processFunctionCore hnr st _ cd
          | typeType a2 => exact nr_processFunctionCore hnr st _ cd
          | otherType => exact nr_processFunctionCore hnr st _ cd
        | funType k2 => exact nr_processFunctionCore hnr st _ cd
        | contractType cid isSup => exact nr_processFunctionCore hnr st _ cd
        | otherType => exact nr_processFunctionCore hnr st _ cd
      · rw [if_neg hlk]
        by_cases hlk2 : lk = VirtualLookup.staticLk
        · rw [if_pos hlk2]
          exact nr_processFunctionCore hnr st _ cd
        · rw [if_neg hlk2]
          simp
    · rw [if_neg hg]
      simp

theorem nr_endVisitModifierCore {env : Env} {main : Int} {visitC : VisitFn} (hnr : NRV visitC)
    (st : BuilderState) (rd : Option Decl) (lk : VirtualLookup) :
    endVisitModifierCore env main visitC st rd lk ≠ .error .visitedCallableAgain := by
  cases rd with
  | none => simp [endVisitModifierCore]
  | some d =>
    simp only [endVisitModifierCore]
    by_cases hm : d.kind = DeclKind.modifierDef
    · rw [if_pos hm]
      by_cases hlk : lk = VirtualLookup.virtualLk
      · rw [if_pos hlk]
        exact nr_processFunctionCore hnr st _ true
      · rw [if_neg hlk]
        by_cases hlk2 : lk = VirtualLookup.staticLk
        · rw [if_pos hlk2]
          exact nr_processFunctionCore hnr st _ true
        · rw [if_neg hlk2]
          simp
    · rw [if_neg hm]
      simp

theorem nr_processRefCore {env : Env} {main : Int} {visitC : VisitFn} (hnr : NRV visitC)
    (st : BuilderState) (r : Ref) :
    processRefCore env main visitC st r ≠ .error .visitedCallableAgain := by
  cases r with
  | ident rd lk ty cd => exact nr_visitIdentCore hnr st rd lk ty cd
  | memberAccess ty rd lk ety cd => exact nr_endVisitMemberCore hnr st ty rd lk ety cd
  | modifierInv rd lk => exact nr_endVisitModifierCore hnr st rd lk
  | newExpr ty => simp [processRefCore]

theorem nr_processRefsCore {env : Env} {main : Int} {visitC : VisitFn} (hnr : NRV visitC) :
    ∀ (refs : List Ref) (st : BuilderState),
      processRefsCore env main visitC st refs ≠ .error .visitedCallableAgain := by
  intro refs
  induction refs with
  | nil => intro st; simp [processRefsCore]
  | cons r rs ih =>
    intro st
    unfold processRefsCore
    cases hr : processRefCore env main visitC st r with
    | error e =>
      have h2 := @nr_processRefCore env main visitC hnr st r
      rw [hr] at h2
      simp only
      exact h2
    | ok st1 => exact ih st1

theorem nr_processRefLists {env : Env} {main : Int} {visitC : VisitFn} (hnr : NRV visitC) :
    ∀ (rss : List (List Ref)) (st : BuilderState),
      processRefLists env main visitC st rss ≠ .error .visitedCallableAgain := by
  intro rss
  induction rss with
  | nil => intro st; simp [processRefLists]
  | cons rs rest ih =>
    intro st
    unfold processRefLists
    cases hr : processRefsCore env main visitC st rs with
    | error e =>
      have h2 := @nr_processRefsCore env main visitC hnr rs st
      rw [hr] at h2
      simp only
      exact h2
    | ok st1 => exact ih st1

theorem nr_visitCallable (env : Env) (main : Int) :
    ∀ fuel : Nat, NRV (fun st c => visitCallable env main fuel st c) := by
  intro fuel
  induction fuel with
  | zero =>
    intro st c _
    simp [visitCallable]
  | succ f ih =>
    intro st c hk
    simp only [visitCallable]
    rw [if_neg (by rw [hk]; simp)]
    cases hr : processRefsCore env main (fun s i => visitCallable env main f s i)
        { st with currentNode := some (.callable c) } (env.bodyOf c) with
    | error e =>
      have h2 := @nr_processRefsCore env main (fun s i => visitCallable env main f s i) ih
        (env.bodyOf c) { st with currentNode := some (.callable c) }
      rw [hr] at h2
      simp only
      exact h2
    | ok st1 => simp

theorem nr_buildPhase1Contract {env : Env} {main : Int} {visitC : VisitFn} (hnr : NRV visitC)
    (st : BuilderState) (ci : ContractInfo) :
    buildPhase1Contract env main visitC st ci ≠ .error .visitedCallableAgain := by
  unfold buildPhase1Contract
  cases h1 : processRefLists env main visitC st ci.stateVarRefs with
  | error e =>
    have h2 := @nr_processRefLists env main visitC hnr ci.stateVarRefs st
    rw [h1] at h2
    simp only
    exact h2
  | ok st1 =>
    simp only
    cases h2 : processRefLists env main visitC st1 ci.baseArgRefs with
    | error e =>
      have h3 := @nr_processRefLists env main visitC hnr ci.baseArgRefs st1
      rw [h2] at h3
      simp only
      exact h3
    | ok st2 =>
      simp only
      cases ci.ctor with
      | none => simp
      | some k =>
        simp only
        cases st2.currentNode with
        | none => simp
        | some n =>
          simp only
          cases h3 : processRefsCore env main visitC (addEdgeSt st2 n (.callable k))
              (env.bodyOf k) with
          | error e =>
            have h4 := @nr_processRefsCore env main visitC hnr (env.bodyOf k)
              (addEdgeSt st2 n (.callable k))
            rw [h3] at h4
            simp only
            exact h4
          | ok st3 => simp

theorem nr_buildPhase1List {env : Env} {main : Int} {visitC : VisitFn} (hnr : NRV visitC) :
    ∀ (cids : List Int) (st : BuilderState),
      buildPhase1List env main visitC st cids ≠ .error .visitedCallableAgain := by
  intro cids
  induction cids with
  | nil => intro st; simp [buildPhase1List]
  | cons cid rest ih =>
    intro st
    unfold buildPhase1List
    cases h1 : buildPhase1Contract env main visitC st (env.contractOf cid) with
    | error e =>
      have h2 := @nr_buildPhase1Contract env main visitC hnr st (env.contractOf cid)
      rw [h1] at h2
      simp only
      exact h2
    | ok st1 => exact ih st1

theorem nr_processInterfaceEntry {env : Env} {main : Int} {visitC : VisitFn} (hnr : NRV visitC)
    (st : BuilderState) (d : Decl) :
    processInterfaceEntry env main visitC st d ≠ .error .visitedCallableAgain := by
  unfold processInterfaceEntry
  by_cases hf : d.kind = DeclKind.functionDef
  · rw [if_pos hf]
    by_cases hk : isKey st.edges (.callable d.id) = true
    · rw [if_pos hk]
      simp
    · rw [if_neg hk]
      cases hvc : visitC st d.id with
      | error e =>
        have h2 := hnr st d.id (Bool.not_eq_true _ ▸ hk)
        rw [hvc] at h2
        simp only
        exact h2
      | ok st1 => simp
  · rw [if_neg hf]
    by_cases hvr : d.kind = DeclKind.variableDecl
    · rw [if_pos hvr]; simp
    · rw [if_neg hvr]; simp

theorem nr_buildPhase2List {env : Env} {main : Int} {visitC : VisitFn} (hnr : NRV visitC) :
    ∀ (ds : List Decl) (st : BuilderState),
      buildPhase2List env main visitC st ds ≠ .error .visitedCallableAgain := by
  intro ds
  induction ds with
  | nil => intro st; simp [buildPhase2List]
  | cons d rest ih =>
    intro st
    unfold buildPhase2List
    cases h1 : processInterfaceEntry env main visitC st d with
    | error e =>
      have h2 := @nr_processInterfaceEntry env main visitC hnr st d
      rw [h1] at h2
      simp only
      exact h2
    | ok st1 => exact ih st1

/-! Termination: the fuel needed by `visitCallable` is bounded because a
recursive descent is only reached after the edge-map key set has grown. -/

/-- Number of callables of the compilation unit that are not yet edge-map
keys. -/
def nonKeyCount (env : Env) (g : List (Node × List Node)) : Nat :=
  (env.callables.filter fun ci => !(isKey g (.callable ci.decl.id))).length

theorem filter_length_flip {α : Type} {l : List α} {p q : α → Bool}
    (h : ∀ a, p a = true → q a = true) {a0 : α} (hmem : a0 ∈ l)
    (hp : p a0 = false) (hq : q a0 = true) :
    (l.filter p).length + 1 ≤ (l.filter q).length := by
  induction l with
  | nil => cases hmem
  | cons x xs ih =>
    rcases List.mem_cons.mp hmem with rfl | hx
    · have hsub := (List.monotone_filter_right xs h).length_le
      simp only [List.filter_cons, hp, hq, if_true, if_false, Bool.false_eq_true,
        List.length_cons]
      omega
    · by_cases hpx : p x = true
      · have hqx := h x hpx
        have := ih hx
        simp only [List.filter_cons, hpx, hqx, if_true, List.length_cons]
        omega
      · rw [Bool.not_eq_true] at hpx
        have := ih hx
        by_cases hqx : q x = true
        · simp only [List.filter_cons, hpx, hqx, if_true, if_false, Bool.false_eq_true,
            List.length_cons]
          omega
        · rw [Bool.not_eq_true] at hqx
          simp only [List.filter_cons, hpx, hqx, if_false, Bool.false_eq_true]
          omega

theorem nonKeyCount_mono (env : Env) {g g' : List (Node × List Node)}
    (hm : ∀ n, isKey g n = true → isKey g' n = true) :
    nonKeyCount env g' ≤ nonKeyCount env g := by
  unfold nonKeyCount
  refine (List.monotone_filter_right env.callables ?_).length_le
  intro ci h1
  rw [Bool.not_eq_true'] at h1 ⊢
  by_contra hc
  rw [Bool.not_eq_false] at hc
  rw [hm _ hc] at h1
  cases h1

theorem nonKeyCount_flip (env : Env) {g g' : List (Node × List Node)} {p : Int}
    (hlisted : ∃ ci ∈ env.callables, ci.decl.id = p)
    (hold : isKey g (.callable p) = false)
    (hnew : isKey g' (.callable p) = true)
    (hm : ∀ n, isKey g n = true → isKey g' n = true) :
    nonKeyCount env g' + 1 ≤ nonKeyCount env g := by
  unfold nonKeyCount
  obtain ⟨ci0, hmem, hid⟩ := hlisted
  refine filter_length_flip ?_ hmem ?_ ?_
  · intro ci h1
    rw [Bool.not_eq_true'] at h1 ⊢
    by_contra hc
    rw [Bool.not_eq_false] at hc
    rw [hm _ hc] at h1
    cases h1
  · rw [hid, hnew]
    rfl
  · rw [hid, hold]
    rfl

theorem nonKeyCount_pos (env : Env) {g : List (Node × List Node)} {p : Int}
    (hlisted : ∃ ci ∈ env.callables, ci.decl.id = p)
    (hold : isKey g (.callable p) = false) : 1 ≤ nonKeyCount env g := by
  unfold nonKeyCount
  obtain ⟨ci0, hmem, hid⟩ := hlisted
  have : ci0 ∈ env.callables.filter fun ci => !(isKey g (.callable ci.decl.id)) := by
    rw [List.mem_filter]
    exact ⟨hmem, by rw [hid, hold]; rfl⟩
  calc 1 ≤ 1 := le_refl 1
    _ ≤ _ := List.length_pos.mpr (List.ne_nil_of_mem this)

theorem nonKeyCount_le_length (env : Env) (g : List (Node × List Node)) :
    nonKeyCount env g ≤ env.callables.length :=
  List.length_filter_le _ _

theorem bodyOf_of_unlisted (env : Env) {c : Int}
    (h : ¬ ∃ ci ∈ env.callables, ci.decl.id = c) : env.bodyOf c = [] := by
  unfold Env.bodyOf Env.findCallable
  rw [List.find?_eq_none.mpr]
  · rfl
  · intro ci hmem hdec
    exact h ⟨ci, hmem, of_decide_eq_true hdec⟩

/-- The recursive-visit callback at budget `F` cannot exhaust the fuel when
the non-key count leaves room under the budget. -/
def TermV (env : Env) (visitC : VisitFn) (F : Nat) : Prop :=
  ∀ st c, nonKeyCount env st.edges + 1 ≤ F → visitC st c ≠ .error .outOfFuel

/-- Invariant while processing a subtree at budget `F`: either the budget
exceeds the non-key count outright, or the current node is a listed non-key
callable (which every direct-call descent keys first). -/
def TermInv (env : Env) (st : BuilderState) (F : Nat) : Prop :=
  nonKeyCount env st.edges + 1 ≤ F ∨
  (∃ p, st.currentNode = some (.callable p) ∧ isKey st.edges (.callable p) = false ∧
     (∃ ci ∈ env.callables, ci.decl.id = p) ∧ nonKeyCount env st.edges ≤ F ∧ 1 ≤ F)

theorem isKey_processFunctionEdges_false (st : BuilderState) (c : Int) :
    isKey (processFunctionEdges st c false).edges (.callable c) = true := by
  unfold processFunctionEdges
  cases st.currentNode with
  | none => exact isKey_addEdge_self _ _ _
  | some n => exact isKey_addEdge_self _ _ _

theorem terminv_step {env : Env} {st st' : BuilderState} {F : Nat}
    (hInv : TermInv env st F) (hp : Pres st st') : TermInv env st' F := by
  rcases hInv with hA | ⟨p, hcn, hkey, hlist, hNF, hF1⟩
  · exact Or.inl (le_trans (by have := nonKeyCount_mono env hp.1.2.1; omega) hA)
  · by_cases hk' : isKey st'.edges (.callable p) = true
    · refine Or.inl ?_
      have := nonKeyCount_flip env hlist hkey hk' hp.1.2.1
      omega
    · refine Or.inr ⟨p, ?_, Bool.not_eq_true _ ▸ hk', hlist, ?_, hF1⟩
      · rw [hp.2.1, hcn]
      · have := nonKeyCount_mono env hp.1.2.1
        omega

theorem tf_processFunctionCore {env : Env} {visitC : VisitFn} {F : Nat}
    (hvT : TermV env visitC F) {st : BuilderState} (hInv : TermInv env st F)
    (c : Int) (direct : Bool) :
    processFunctionCore visitC st c direct ≠ .error .outOfFuel := by
  simp only [processFunctionCore]
  by_cases hk : isKey (processFunctionEdges st c direct).edges (.callable c) = true
  · rw [if_pos hk]
    simp
  · rw [if_neg hk]
    refine hvT _ c ?_
    rcases hInv with hA | ⟨p, hcn, hpkey, hplist, hNF, hF1⟩
    · have := nonKeyCount_mono env (pres_processFunctionEdges st c direct).1.2.1
      omega
    · cases direct with
      | false => exact absurd (isKey_processFunctionEdges_false st c) hk
      | true =>
        have hedges : processFunctionEdges st c true = addEdgeSt st (.callable p) (.callable c) := by
          unfold processFunctionEdges
          rw [hcn]
          simp
        rw [hedges]
        rw [hedges] at hk
        have hpk : isKey (addEdgeSt st (.callable p) (.callable c)).edges (.callable p) = true :=
          isKey_addEdge_self _ _ _
        have hmono : ∀ n, isKey st.edges n = true →
            isKey (addEdgeSt st (.callable p) (.callable c)).edges n = true :=
          fun n h => (isKey_addEdge _ _ _ n).mpr (Or.inl h)
        have := nonKeyCount_flip env hplist hpkey hpk hmono
        omega

theorem tf_visitIdentCore {env : Env} {main : Int} {visitC : VisitFn} {F : Nat}
    (hvT : TermV env visitC F) {st : BuilderState} (hInv : TermInv env st F)
    (rd : Option Decl) (lk : VirtualLookup) (ty : TypeAnn) (cd : Bool) :
    visitIdentCore env main visitC st rd lk ty cd ≠ .error .outOfFuel := by
  cases rd with
  | none => simp [visitIdentCore]
  | some d =>
    simp only [visitIdentCore]
    by_cases hc : d.isCallable = true
    · rw [if_pos hc]
      by_cases hlk : lk ≠ VirtualLookup.virtualLk
      · rw [if_pos hlk]
        simp
      · rw [if_neg hlk]
        cases ty with
        | funType k =>
          cases k with
          | internalFun =>
            simp only
            cases hpf : processFunctionCore visitC st (resolveVirtual env main d.id none) cd with
            | error e =>
              have h2 := tf_processFunctionCore hvT hInv (resolveVirtual env main d.id none) cd
              rw [hpf] at h2
              simp only
              exact h2
            | ok st1 =>
              simp only
              by_cases hs : st1.currentNode.isSome = true
              · rw [if_pos hs]; simp
              · rw [if_neg hs]; simp
          | externalFun => simp
          | eventFun => simp
          | otherFun => simp
        | contractType cid isSup => simp
        | typeType actual => simp
        | otherType => simp
    · rw [if_neg hc]
      simp

theorem tf_endVisitMemberCore {env : Env} {main : Int} {visitC : VisitFn} {F : Nat}
    (hvT : TermV env visitC F) {st : BuilderState} (hInv : TermInv env st F)
    (ty : TypeAnn) (rd : Option Decl) (lk : VirtualLookup) (ety : TypeAnn) (cd : Bool) :
    endVisitMemberCore env main visitC st ty rd lk ety cd ≠ .error .outOfFuel := by
  unfold endVisitMemberCore
  split
  case h_2 => simp
  case h_1 k d =>
    by_cases hg : (decide (d.kind = DeclKind.functionDef) && decide (k = FunctionKind.internalFun)) = true
    · rw [if_pos hg]
      by_cases hlk : lk = VirtualLookup.superLk
      · rw [if_pos hlk]
        cases ety with
        | typeType actual =>
          cases actual with
          | contractType cid isSup =>
            simp only
            cases isSup with
            | true => simp only [if_pos rfl]; exact tf_processFunctionCore hvT hInv _ cd
            | false => simp
          | funType k2 => exact tf_processFunctionCore hvT hInv _ cd
          | typeType a2 => exact tf_processFunctionCore hvT hInv _ cd
          | otherType => exact tf_processFunctionCore hvT hInv _ cd
        | funType k2 => exact tf_processFunctionCore hvT hInv _ cd
        | contractType cid isSup => exact tf_processFunctionCore hvT hInv _ cd
        | otherType => exact tf_processFunctionCore hvT hInv _ cd
      · rw [if_neg hlk]
        by_cases hlk2 : lk = VirtualLookup.staticLk
        · rw [if_pos hlk2]
          exact tf_processFunctionCore hvT hInv _ cd
        · rw [if_neg hlk2]
          simp
    · rw [if_neg hg]
      simp

theorem tf_endVisitModifierCore {env : Env} {main : Int} {visitC : VisitFn} {F : Nat}
    (hvT : TermV env visitC F) {st : BuilderState} (hInv : TermInv env st F)
    (rd : Option Decl) (lk : VirtualLookup) :
    endVisitModifierCore env main visitC st rd lk ≠ .error .outOfFuel := by
  cases rd with
  | none => simp [endVisitModifierCore]
  | some d =>
    simp only [endVisitModifierCore]
    by_cases hm : d.kind = DeclKind.modifierDef
    · rw [if_pos hm]
      by_cases hlk : lk = VirtualLookup.virtualLk
      · rw [if_pos hlk]
        exact tf_processFunctionCore hvT hInv _ true
      · rw [if_neg hlk]
        by_cases hlk2 : lk = VirtualLookup.staticLk
        · rw [if_pos hlk2]
          exact tf_processFunctionCore hvT hInv _ true
        · rw [if_neg hlk2]
          simp
    · rw [if_neg hm]
      simp

theorem tf_processRefCore {env : Env} {main : Int} {visitC : VisitFn} {F : Nat}
    (hvT : TermV env visitC F) {st : BuilderState} (hInv : TermInv env st F) (r : Ref) :
    processRefCore env main visitC st r ≠ .error .outOfFuel := by
  cases r with
  | ident rd lk ty cd => exact tf_visitIdentCore hvT hInv rd lk ty cd
  | memberAccess ty rd lk ety cd => exact tf_endVisitMemberCore hvT hInv ty rd lk ety cd
  | modifierInv rd lk => exact tf_endVisitModifierCore hvT hInv rd lk
  | newExpr ty => simp [processRefCore]

theorem tf_processRefsCore {env : Env} {main : Int} {visitC : VisitFn} {F : Nat}
    (hv : MonoV visitC) (hvT : TermV env visitC F) :
    ∀ (refs : List Ref) (st : BuilderState), TermInv env st F →
      processRefsCore env main visitC st refs ≠ .error .outOfFuel := by
  intro refs
  induction refs with
  | nil => intro st _; simp [processRefsCore]
  | cons r rs ih =>
    intro st hInv
    unfold processRefsCore
    cases hr : processRefCore env main visitC st r with
    | error e =>
      have h2 := @tf_processRefCore env main visitC F hvT st hInv r
      rw [hr] at h2
      simp only
      exact h2
    | ok st1 => exact ih st1 (terminv_step hInv (pres_processRefCore hv st r hr))

theorem tf_visitCallable (env : Env) (main : Int) :
    ∀ (F : Nat) (st : BuilderState) (c : Int), nonKeyCount env st.edges + 1 ≤ F →
      visitCallable env main F st c ≠ .error .outOfFuel := by
  intro F
  induction F with
  | zero =>
    intro st c h
    omega
  | succ f ih =>
    intro st c h
    simp only [visitCallable]
    by_cases hk : isKey st.edges (.callable c) = true
    · rw [if_pos hk]
      simp
    · rw [if_neg hk]
      by_cases hlist : ∃ ci ∈ env.callables, ci.decl.id = c
      · have hInv : TermInv env { st with currentNode := some (.callable c) } f := by
          refine Or.inr ⟨c, rfl, Bool.not_eq_true _ ▸ hk, hlist, ?_, ?_⟩
          · simp only
            omega
          · have := nonKeyCount_pos env hlist (Bool.not_eq_true _ ▸ hk)
            omega
        cases hr : processRefsCore env main (fun s i => visitCallable env main f s i)
            { st with currentNode := some (.callable c) } (env.bodyOf c) with
        | error e =>
          have h2 := @tf_processRefsCore env main (fun s i => visitCallable env main f s i) f
            (pres_visitCallable env main f) (fun s1 c1 h1 => ih s1 c1 h1) (env.bodyOf c)
            { st with currentNode := some (.callable c) } hInv
          rw [hr] at h2
          simp only
          exact h2
        | ok st1 => simp
      · rw [bodyOf_of_unlisted env hlist]
        simp [processRefsCore]

theorem terminv_of_budget {env : Env} {st : BuilderState} {F : Nat}
    (hF : env.callables.length + 1 ≤ F) : TermInv env st F :=
  Or.inl (by have := nonKeyCount_le_length env st.edges; omega)

theorem tf_processRefLists {env : Env} {main : Int} {visitC : VisitFn} {F : Nat}
    (hv : MonoV visitC) (hvT : TermV env visitC F)
    (hF : env.callables.length + 1 ≤ F) :
    ∀ (rss : List (List Ref)) (st : BuilderState),
      processRefLists env main visitC st rss ≠ .error .outOfFuel := by
  intro rss
  induction rss with
  | nil => intro st; simp [processRefLists]
  | cons rs rest ih =>
    intro st
    unfold processRefLists
    cases hr : processRefsCore env main visitC st rs with
    | error e =>
      have h2 := @tf_processRefsCore env main visitC F hv hvT rs st (terminv_of_budget hF)
      rw [hr] at h2
      simp only
      exact h2
    | ok st1 => exact ih st1

theorem tf_buildPhase1Contract {env : Env} {main : Int} {visitC : VisitFn} {F : Nat}
    (hv : MonoV visitC) (hvT : TermV env visitC F)
    (hF : env.callables.length + 1 ≤ F) (st : BuilderState) (ci : ContractInfo) :
    buildPhase1Contract env main visitC st ci ≠ .error .outOfFuel := by
  unfold buildPhase1Contract
  cases h1 : processRefLists env main visitC st ci.stateVarRefs with
  | error e =>
    have h2 := @tf_processRefLists env main visitC F hv hvT hF ci.stateVarRefs st
    rw [h1] at h2
    simp only
    exact h2
  | ok st1 =>
    simp only
    cases h2 : processRefLists env main visitC st1 ci.baseArgRefs with
    | error e =>
      have h3 := @tf_processRefLists env main visitC F hv hvT hF ci.baseArgRefs st1
      rw [h2] at h3
      simp only
      exact h3
    | ok st2 =>
      simp only
      cases ci.ctor with
      | none => simp
      | some k =>
        simp only
        cases st2.currentNode with
        | none => simp
        | some n =>
          simp only
          cases h3 : processRefsCore env main visitC (addEdgeSt st2 n (.callable k))
              (env.bodyOf k) with
          | error e =>
            have h4 := @tf_processRefsCore env main visitC F hv hvT (env.bodyOf k)
              (addEdgeSt st2 n (.callable k)) (terminv_of_budget hF)
            rw [h3] at h4
            simp only
            exact h4
          | ok st3 => simp

theorem tf_buildPhase1List {env : Env} {main : Int} {visitC : VisitFn} {F : Nat}
    (hv : MonoV visitC) (hvT : TermV env visitC F)
    (hF : env.callables.length + 1 ≤ F) :
    ∀ (cids : List Int) (st : BuilderState),
      buildPhase1List env main visitC st cids ≠ .error .outOfFuel := by
  intro cids
  induction cids with
  | nil => intro st; simp [buildPhase1List]
  | cons cid rest ih =>
    intro st
    unfold buildPhase1List
    cases h1 : buildPhase1Contract env main visitC st (env.contractOf cid) with
    | error e =>
      have h2 := @tf_buildPhase1Contract env main visitC F hv hvT hF st (env.contractOf cid)
      rw [h1] at h2
      simp only
      exact h2
    | ok st1 => exact ih st1

theorem tf_processInterfaceEntry {env : Env} {main : Int} {visitC : VisitFn} {F : Nat}
    (hvT : TermV env visitC F) (hF : env.callables.length + 1 ≤ F)
    (st : BuilderState) (d : Decl) :
    processInterfaceEntry env main visitC st d ≠ .error .outOfFuel := by
  unfold processInterfaceEntry
  by_cases hf : d.kind = DeclKind.functionDef
  · rw [if_pos hf]
    by_cases hk : isKey st.edges (.callable d.id) = true
    · rw [if_pos hk]
      simp
    · rw [if_neg hk]
      cases hvc : visitC st d.id with
      | error e =>
        have h2 := hvT st d.id (by have := nonKeyCount_le_length env st.edges; omega)
        rw [hvc] at h2
        simp only
        exact h2
      | ok st1 => simp
  · rw [if_neg hf]
    by_cases hvr : d.kind = DeclKind.variableDecl
    · rw [if_pos hvr]; simp
    · rw [if_neg hvr]; simp

theorem tf_buildPhase2List {env : Env} {main : Int} {visitC : VisitFn} {F : Nat}
    (hvT : TermV env visitC F) (hF : env.callables.length + 1 ≤ F) :
    ∀ (ds : List Decl) (st : BuilderState),
      buildPhase2List env main visitC st ds ≠ .error .outOfFuel := by
  intro ds
  induction ds with
  | nil => intro st; simp [buildPhase2List]
  | cons d rest ih =>
    intro st
    unfold buildPhase2List
    cases h1 : processInterfaceEntry env main visitC st d with
    | error e =>
      have h2 := @tf_processInterfaceEntry env main visitC F hvT hF st d
      rw [h1] at h2
      simp only
      exact h2
    | ok st1 => exact ih st1

/-! Build-level facts. -/

theorem build_ne_outOfFuel (env : Env) (main : Int) (fuel : Nat)
    (hF : env.callables.length + 1 ≤ fuel) :
    build env main fuel ≠ .error .outOfFuel := by
  unfold build
  simp only
  have hv := pres_visitCallable env main fuel
  have hvT : TermV env (fun st c => visitCallable env main fuel st c) fuel :=
    fun st c h => tf_visitCallable env main fuel st c h
  cases h1 : buildPhase1List env main (fun st c => visitCallable env main fuel st c)
      { edges := [], createdContracts := [],
        currentNode := some (.special .entryCreation),
        currentDispatch := .internalCreationDispatch }
      (env.contractOf main).linearized.reverse with
  | error e =>
    have h2 := @tf_buildPhase1List env main (fun st c => visitCallable env main fuel st c)
      fuel hv hvT hF (env.contractOf main).linearized.reverse
      { edges := [], createdContracts := [],
        currentNode := some (.special .entryCreation),
        currentDispatch := .internalCreationDispatch }
    rw [h1] at h2
    simp only
    exact h2
  | ok st1 =>
    simp only
    cases h2 : buildPhase2List env main (fun st c => visitCallable env main fuel st c)
        { st1 with currentNode := none, currentDispatch := SpecialNode.internalDispatch }
        (env.contractOf main).interfaceList with
    | error e =>
      have h3 := @tf_buildPhase2List env main (fun st c => visitCallable env main fuel st c)
        fuel hvT hF (env.contractOf main).interfaceList
        { st1 with currentNode := none, currentDispatch := SpecialNode.internalDispatch }
      rw [h2] at h3
      simp only
      exact h3
    | ok st3 =>
      simp only
      cases (env.contractOf main).fallbackFn with
      | none =>
        cases (env.contractOf main).receiveFn with
        | none => simp
        | some rc => simp
      | some fb =>
        cases (env.contractOf main).receiveFn with
        | none => simp
        | some rc => simp

theorem build_ne_visitedAgain (env : Env) (main : Int) (fuel : Nat) :
    build env main fuel ≠ .error .visitedCallableAgain := by
  unfold build
  simp only
  have hnr := nr_visitCallable env main fuel
  cases h1 : buildPhase1List env main (fun st c => visitCallable env main fuel st c)
      { edges := [], createdContracts := [],
        currentNode := some (.special .entryCreation),
        currentDispatch := .internalCreationDispatch }
      (env.contractOf main).linearized.reverse with
  | error e =>
    have h2 := @nr_buildPhase1List env main (fun st c => visitCallable env main fuel st c) hnr
      (env.contractOf main).linearized.reverse
      { edges := [], createdContracts := [],
        currentNode := some (.special .entryCreation),
        currentDispatch := .internalCreationDispatch }
    rw [h1] at h2
    simp only
    exact h2
  | ok st1 =>
    simp only
    cases h2 : buildPhase2List env main (fun st c => visitCallable env main fuel st c)
        { st1 with currentNode := none, currentDispatch := SpecialNode.internalDispatch }
        (env.contractOf main).interfaceList with
    | error e =>
      have h3 := @nr_buildPhase2List env main (fun st c => visitCallable env main fuel st c) hnr
        (env.contractOf main).interfaceList
        { st1 with currentNode := none, currentDispatch := SpecialNode.internalDispatch }
      rw [h2] at h3
      simp only
      exact h3
    | ok st3 =>
      simp only
      cases (env.contractOf main).fallbackFn with
      | none =>
        cases (env.contractOf main).receiveFn with
        | none => simp
        | some rc => simp
      | some fb =>
        cases (env.contractOf main).receiveFn with
        | none => simp
        | some rc => simp

/-- Decomposition of a successful build: the two phase results exist, the
final state only extends the phase-2 state, and the tail edges (the fixed
bridging edge and the fallback / receive wiring) are present. -/
theorem build_ok_cases {env : Env} {main : Int} {fuel : Nat} {st' : BuilderState}
    (h : build env main fuel = .ok st') :
    ∃ st1 st3,
      buildPhase1List env main (fun st c => visitCallable env main fuel st c)
        { edges := [], createdContracts := [],
          currentNode := some (.special .entryCreation),
          currentDispatch := .internalCreationDispatch }
        (env.contractOf main).linearized.reverse = .ok st1 ∧
      buildPhase2List env main (fun st c => visitCallable env main fuel st c)
        { st1 with currentNode := none, currentDispatch := SpecialNode.internalDispatch }
        (env.contractOf main).interfaceList = .ok st3 ∧
      GPres st3 st' ∧
      hasEdge st'.edges (.special .internalDispatch) (.special .internalCreationDispatch) = true ∧
      (match (env.contractOf main).fallbackFn with
        | some fb => hasEdge st'.edges (.special .entry) (.callable fb) = true
        | none => True) ∧
      (match (env.contractOf main).receiveFn with
        | some rc => hasEdge st'.edges (.special .entry) (.callable rc) = true
        | none => True) := by
  unfold build at h
  simp only at h
  cases h1 : buildPhase1List env main (fun st c => visitCallable env main fuel st c)
      { edges := [], createdContracts := [],
        currentNode := some (.special .entryCreation),
        currentDispatch := .internalCreationDispatch }
      (env.contractOf main).linearized.reverse with
  | error e => rw [h1] at h; exact absurd h (by simp)
  | ok st1 =>
    rw [h1] at h
    simp only at h
    cases h2 : buildPhase2List env main (fun st c => visitCallable env main fuel st c)
        { st1 with currentNode := none, currentDispatch := SpecialNode.internalDispatch }
        (env.contractOf main).interfaceList with
    | error e => rw [h2] at h; exact absurd h (by simp)
    | ok st3 =>
      rw [h2] at h
      simp only at h
      refine ⟨st1, st3, rfl, h2, ?_⟩
      have hbase := pres_addEdgeSt st3 (.special .internalDispatch)
        (.special .internalCreationDispatch)
      have hbe : hasEdge (addEdgeSt st3 (.special .internalDispatch)
          (.special .internalCreationDispatch)).edges
          (.special .internalDispatch) (.special .internalCreationDispatch) = true :=
        hasEdge_addEdge_self _ _ _
      cases hfb : (env.contractOf main).fallbackFn with
      | none =>
        cases hrc : (env.contractOf main).receiveFn with
        | none =>
          rw [hfb, hrc] at h
          simp only at h
          cases h
          exact ⟨gpres_trans hbase.1 (gpres_same rfl rfl), hbe, trivial, trivial⟩
        | some rc =>
          rw [hfb, hrc] at h
          simp only at h
          cases h
          have hp2 := pres_addEdgeSt (addEdgeSt st3 (.special .internalDispatch)
            (.special .internalCreationDispatch)) (.special .entry) (.callable rc)
          refine ⟨gpres_trans hbase.1 (gpres_trans hp2.1 (gpres_same rfl rfl)), ?_, trivial, ?_⟩
          · exact hp2.1.1 _ _ hbe
          · exact hasEdge_addEdge_self _ _ _
      | some fb =>
        have hp2 := pres_addEdgeSt (addEdgeSt st3 (.special .internalDispatch)
          (.special .internalCreationDispatch)) (.special .entry) (.callable fb)
        have hfe : hasEdge (addEdgeSt (addEdgeSt st3 (.special .internalDispatch)
            (.special .internalCreationDispatch)) (.special .entry) (.callable fb)).edges
            (.special .entry) (.callable fb) = true := hasEdge_addEdge_self _ _ _
        cases hrc : (env.contractOf main).receiveFn with
        | none =>
          rw [hfb, hrc] at h
          simp only at h
          cases h
          exact ⟨gpres_trans hbase.1 (gpres_trans hp2.1 (gpres_same rfl rfl)),
            hp2.1.1 _ _ hbe, hfe, trivial⟩
        | some rc =>
          rw [hfb, hrc] at h
          simp only at h
          cases h
          have hp3 := pres_addEdgeSt (addEdgeSt (addEdgeSt st3 (.special .internalDispatch)
            (.special .internalCreationDispatch)) (.special .entry) (.callable fb))
            (.special .entry) (.callable rc)
          refine ⟨gpres_trans hbase.1 (gpres_trans hp2.1 (gpres_trans hp3.1 (gpres_same rfl rfl))),
            hp3.1.1 _ _ (hp2.1.1 _ _ hbe), hp3.1.1 _ _ hfe, ?_⟩
          exact hasEdge_addEdge_self _ _ _

theorem interfaceEntry_adds_edge {env : Env} {main : Int} {visitC : VisitFn}
    {st st' : BuilderState} {d : Decl} (hf : d.kind = DeclKind.functionDef)
    (h : processInterfaceEntry env main visitC st d = .ok st') :
    hasEdge st'.edges (.special .entry) (.callable d.id) = true := by
  unfold processInterfaceEntry at h
  rw [if_pos hf] at h
  by_cases hk : isKey st.edges (.callable d.id) = true
  · rw [if_pos hk] at h
    simp only at h
    cases h
    exact hasEdge_addEdge_self _ _ _
  · rw [if_neg hk] at h
    cases hvc : visitC st d.id with
    | error e => rw [hvc] at h; exact absurd h (by simp)
    | ok st1 =>
      rw [hvc] at h
      simp only at h
      cases h
      exact hasEdge_addEdge_self _ _ _

theorem phase2_entry_edges {env : Env} {main : Int} {visitC : VisitFn} (hv : MonoV visitC) :
    ∀ (ds : List Decl) (st : BuilderState) {st' : BuilderState},
      buildPhase2List env main visitC st ds = .ok st' →
      ∀ d ∈ ds, d.kind = DeclKind.functionDef →
        hasEdge st'.edges (.special .entry) (.callable d.id) = true := by
  intro ds
  induction ds with
  | nil =>
    intro st st' h d hd
    cases hd
  | cons d0 rest ih =>
    intro st st' h d hd hf
    unfold buildPhase2List at h
    cases h1 : processInterfaceEntry env main visitC st d0 with
    | error e => rw [h1] at h; exact absurd h (by simp)
    | ok st1 =>
      rw [h1] at h
      rcases List.mem_cons.mp hd with rfl | hdrest
      · exact (gpres_buildPhase2List hv rest st1 h).1 _ _ (interfaceEntry_adds_edge hf h1)
      · exact ih st1 h d hdrest hf

theorem build_keys_nodup (env : Env) (main : Int) (fuel : Nat) {st' : BuilderState}
    (h : build env main fuel = .ok st') : (st'.edges.map Prod.fst).Nodup := by
  obtain ⟨st1, st3, h1, h2, hg3, _⟩ := build_ok_cases h
  have hv := pres_visitCallable env main fuel
  have g1 := gpres_buildPhase1List hv _ _ h1
  have g2 := gpres_buildPhase2List hv _ _ h2
  refine hg3.2.2.2 (g2.2.2.2 ?_)
  simp only
  exact g1.2.2.2 (by simp)

/-! Claim theorems. -/

/-- C1 counterexample: for contract A of `envC1`, whose constructor (id 100)
directly calls internal f (id 10), the built graph does not contain the edge
constructor(A) → f and f is not a key in `edges` — the claimed
`constructor(A) → f` edge and keyness both fail, because the constructor's
subtree is traversed by plain `accept` before the current node is advanced,
so the call is attributed to `EntryCreation`, and a visit alone never makes
a callable a key. -/
theorem C1_counterexample :
    build envC1 0 10 = .ok stC1 ∧
    hasEdge stC1.edges (.callable 100) (.callable 10) = false ∧
    isKey stC1.edges (.callable 10) = false :=
  ⟨by rfl, by rfl, by rfl⟩

/-- C1 (amended): in the creation phase, a contract's constructor (id k)
receives an edge from the node that is current before it, its subtree is then
traversed with that previous node still current (so a direct call to f inside
the constructor's body produces an edge previous-node → f, which is
`EntryCreation → f` for a contract with no inheritance, not
constructor → f), and only afterwards does the current node advance to the
constructor; f becomes a key in `edges` exactly when its own visit adds
outgoing edges (f with an empty body stays a non-key, f calling g becomes a
key). -/
theorem C1_amended :
    (∀ (env : Env) (main : Int) (visitC : VisitFn) (ci : ContractInfo)
       (st : BuilderState) (k : Int) (n : Node),
       ci.stateVarRefs = [] → ci.baseArgRefs = [] → ci.ctor = some k →
       st.currentNode = some n →
       buildPhase1Contract env main visitC st ci =
         (match processRefsCore env main visitC (addEdgeSt st n (.callable k))
             (env.bodyOf k) with
          | .error e => .error e
          | .ok st3 => .ok { st3 with currentNode := some (.callable k) })) ∧
    (build envC1 0 10 = .ok stC1 ∧
     hasEdge stC1.edges (.special .entryCreation) (.callable 100) = true ∧
     hasEdge stC1.edges (.special .entryCreation) (.callable 10) = true ∧
     hasEdge stC1.edges (.callable 100) (.callable 10) = false ∧
     isKey stC1.edges (.callable 10) = false) ∧
    (build envC1b 0 10 = .ok stC1b ∧
     hasEdge stC1b.edges (.special .entryCreation) (.callable 10) = true ∧
     hasEdge stC1b.edges (.callable 100) (.callable 10) = false ∧
     isKey stC1b.edges (.callable 10) = true) := by
  refine ⟨?_, ⟨by rfl, by rfl, by rfl, by rfl, by rfl⟩, ⟨by rfl, by rfl, by rfl, by rfl⟩⟩
  intro env main visitC ci st k n hsv hba hct hcn
  unfold buildPhase1Contract
  rw [hsv, hba, hct]
  simp only [processRefLists]
  rw [hcn]

/-- C1 amended witness: the constructor-handling equation instantiated on
`envC1`'s contract from the initial creation-phase state. -/
theorem C1_amended_witness :
    buildPhase1Contract envC1 0 (fun s c => visitCallable envC1 0 5 s c)
      { edges := [], createdContracts := [],
        currentNode := some (.special .entryCreation),
        currentDispatch := .internalCreationDispatch }
      (envC1.contractOf 0) =
      (match processRefsCore envC1 0 (fun s c => visitCallable envC1 0 5 s c)
          (addEdgeSt
            { edges := [], createdContracts := [],
              currentNode := some (.special .entryCreation),
              currentDispatch := .internalCreationDispatch }
            (.special .entryCreation) (.callable 100))
          (envC1.bodyOf 100) with
       | .error e => .error e
       | .ok st3 => .ok { st3 with currentNode := some (.callable 100) }) :=
  C1_amended.1 envC1 0 (fun s c => visitCallable envC1 0 5 s c) (envC1.contractOf 0)
    { edges := [], createdContracts := [],
      currentNode := some (.special .entryCreation),
      currentDispatch := .internalCreationDispatch }
    100 (.special .entryCreation) (by rfl) (by rfl) (by rfl) (by rfl)

/-- C2: a callable appears as an edge-map key at most once (the key list of
every built graph has no duplicates), a build never trips the
`visitCallable` entry assertion (every recursive descent is guarded by the
"not yet a key in edges" check, so a callable that is a key is never visited
again through it), and construction cannot run out of fuel once the fuel
exceeds the number of callables — in particular it terminates on direct
self-recursion and mutual-recursion cycles. -/
theorem C2_single_visit :
    (∀ (env : Env) (main : Int) (fuel : Nat) (st : BuilderState),
       build env main fuel = .ok st → (st.edges.map Prod.fst).Nodup) ∧
    (∀ (env : Env) (main : Int) (fuel : Nat),
       build env main fuel ≠ .error .visitedCallableAgain) ∧
    (∀ (env : Env) (main : Int) (fuel : Nat), env.callables.length + 1 ≤ fuel →
       build env main fuel ≠ .error .outOfFuel) :=
  ⟨fun env main fuel st h => build_keys_nodup env main fuel h,
   fun env main fuel => build_ne_visitedAgain env main fuel,
   fun env main fuel h => build_ne_outOfFuel env main fuel h⟩

/-- C2 witness: on the mutually recursive `envMutual` (a calls b, b calls a)
the build succeeds with duplicate-free keys, never trips the revisit
assertion, and does not exhaust fuel 10 (which exceeds its 2 callables). -/
theorem C2_single_visit_witness :
    (stMutual.edges.map Prod.fst).Nodup ∧
    build envMutual 0 10 ≠ .error .visitedCallableAgain ∧
    build envMutual 0 10 ≠ .error .outOfFuel :=
  ⟨C2_single_visit.1 envMutual 0 10 stMutual (by rfl),
   C2_single_visit.2.1 envMutual 0 10,
   C2_single_visit.2.2 envMutual 0 10 (by decide)⟩

/-- C3: in `envC3`, concrete contract B (cid 2) overrides the virtual f
declared in base A; building B's graph makes the plain identifier call in h
(id 30) resolve to B's override (id 20) and the explicit super-call resolve
to A's declaration (id 10) — the override found from the next base above B
in the linearization — and the two target nodes are distinct. -/
theorem C3_super_vs_virtual :
    build envC3 2 10 = .ok stC3 ∧
    hasEdge stC3.edges (.callable 30) (.callable 20) = true ∧
    hasEdge stC3.edges (.callable 30) (.callable 10) = true ∧
    Node.callable 20 ≠ Node.callable 10 ∧
    resolveVirtual envC3 2 20 none = 20 ∧
    resolveVirtual envC3 2 20 (superContract envC3 2 2) = 10 :=
  ⟨by rfl, by rfl, by rfl, by decide, by rfl, by rfl⟩

/-- C4: processing a reference resolved to g and classified indirect adds
exactly the two edges current-dispatch → g and g → current-dispatch (the
dispatch node being the phase's current one stored in the state), adds no
edge from the syntactically containing callable, and does not visit g (g is
a key after the symmetric edge, so the result is exactly the input state
plus those two edges). -/
theorem C4_indirect_call_symmetry :
    ∀ (visitC : VisitFn) (st : BuilderState) (g : Int),
      processFunctionCore visitC st g false =
        .ok (addEdgeSt (addEdgeSt st (.special st.currentDispatch) (.callable g))
          (.callable g) (.special st.currentDispatch)) ∧
      (∀ a b,
        hasEdge (addEdgeSt (addEdgeSt st (.special st.currentDispatch) (.callable g))
          (.callable g) (.special st.currentDispatch)).edges a b = true ↔
        (hasEdge st.edges a b = true ∨
         (a = .special st.currentDispatch ∧ b = .callable g) ∨
         (a = .callable g ∧ b = .special st.currentDispatch))) := by
  intro visitC st g
  have hedges : processFunctionEdges st g false =
      addEdgeSt (addEdgeSt st (.special st.currentDispatch) (.callable g))
        (.callable g) (.special st.currentDispatch) := by
    unfold processFunctionEdges
    cases st.currentNode <;> simp
  constructor
  · have hkey : isKey (addEdgeSt (addEdgeSt st (.special st.currentDispatch) (.callable g))
        (.callable g) (.special st.currentDispatch)).edges (.callable g) = true :=
      isKey_addEdge_self _ _ _
    simp only [processFunctionCore, hedges]
    rw [if_pos hkey]
  · intro a b
    simp only [addEdgeSt]
    rw [hasEdge_addEdge, hasEdge_addEdge]
    tauto

/-- C5: every successfully built graph contains the fixed edge
`InternalDispatch → InternalCreationDispatch`, added after both phases; and
on the empty contract the built graph consists of exactly this edge and
nothing else, so no other unconditionally added fixed edge exists. -/
theorem C5_fixed_bridging_edge :
    (∀ (env : Env) (main : Int) (fuel : Nat) (st : BuilderState),
       build env main fuel = .ok st →
       hasEdge st.edges (.special .internalDispatch)
         (.special .internalCreationDispatch) = true) ∧
    build envTrivial 0 5 = .ok stTrivial := by
  constructor
  · intro env main fuel st h
    obtain ⟨_, _, _, _, _, hb, _⟩ := build_ok_cases h
    exact hb
  · rfl

/-- C5 witness: the fixed-edge fact instantiated on the empty contract. -/
theorem C5_fixed_bridging_edge_witness :
    hasEdge stTrivial.edges (.special .internalDispatch)
      (.special .internalCreationDispatch) = true :=
  C5_fixed_bridging_edge.1 envTrivial 0 5 stTrivial (by rfl)

/-- C6: in a successful build, every interface entry that is a function
definition yields the edge Entry → function, the fallback and receive
functions (when present) get Entry edges; an interface entry that is already
a key still gets its Entry edge unconditionally without being revisited; and
a public-variable getter entry is skipped, contributing nothing. -/
theorem C6_interface_wiring :
    (∀ (env : Env) (main : Int) (fuel : Nat) (st : BuilderState),
       build env main fuel = .ok st →
       (∀ d ∈ (env.contractOf main).interfaceList, d.kind = DeclKind.functionDef →
          hasEdge st.edges (.special .entry) (.callable d.id) = true) ∧
       (∀ fb, (env.contractOf main).fallbackFn = some fb →
          hasEdge st.edges (.special .entry) (.callable fb) = true) ∧
       (∀ rc, (env.contractOf main).receiveFn = some rc →
          hasEdge st.edges (.special .entry) (.callable rc) = true)) ∧
    (∀ (env : Env) (main : Int) (visitC : VisitFn) (st : BuilderState) (i : Int),
       isKey st.edges (.callable i) = true →
       processInterfaceEntry env main visitC st ⟨i, .functionDef⟩ =
         .ok (addEdgeSt st (.special .entry) (.callable i))) ∧
    (∀ (env : Env) (main : Int) (visitC : VisitFn) (st : BuilderState) (i : Int),
       processInterfaceEntry env main visitC st ⟨i, .variableDecl⟩ = .ok st) := by
  refine ⟨?_, ?_, ?_⟩
  · intro env main fuel st h
    obtain ⟨st1, st3, h1, h2, hg3, _, hfb, hrc⟩ := build_ok_cases h
    refine ⟨?_, ?_, ?_⟩
    · intro d hd hf
      exact hg3.1 _ _
        (phase2_entry_edges (pres_visitCallable env main fuel) _ _ h2 d hd hf)
    · intro fb hfbeq
      rw [hfbeq] at hfb
      exact hfb
    · intro rc hrceq
      rw [hrceq] at hrc
      exact hrc
  · intro env main visitC st i hk
    unfold processInterfaceEntry
    rw [if_pos rfl, if_pos hk]
  · intro env main visitC st i
    unfold processInterfaceEntry
    rw [if_neg (by simp), if_pos rfl]

/-- C6 witness: the interface wiring instantiated on `envC6` (function 40,
getter 41, fallback 50, receive 51), plus the unconditional-add equation on
a state where 40 is already a key and the getter-skip equation. -/
theorem C6_interface_wiring_witness :
    hasEdge stC6.edges (.special .entry) (.callable 40) = true ∧
    hasEdge stC6.edges (.special .entry) (.callable 50) = true ∧
    hasEdge stC6.edges (.special .entry) (.callable 51) = true ∧
    processInterfaceEntry envC6 0 (fun s c => visitCallable envC6 0 5 s c)
      stKeyed40 ⟨40, .functionDef⟩ =
      .ok (addEdgeSt stKeyed40 (.special .entry) (.callable 40)) ∧
    processInterfaceEntry envC6 0 (fun s c => visitCallable envC6 0 5 s c)
      stC6 ⟨41, .variableDecl⟩ = .ok stC6 :=
  ⟨(C6_interface_wiring.1 envC6 0 10 stC6 (by rfl)).1 ⟨40, .functionDef⟩ (by decide) rfl,
   (C6_interface_wiring.1 envC6 0 10 stC6 (by rfl)).2.1 50 (by rfl),
   (C6_interface_wiring.1 envC6 0 10 stC6 (by rfl)).2.2 51 (by rfl),
   C6_interface_wiring.2.1 envC6 0 (fun s c => visitCallable envC6 0 5 s c)
     stKeyed40 40 (by rfl),
   C6_interface_wiring.2.2 envC6 0 (fun s c => visitCallable envC6 0 5 s c) stC6 41⟩

/-- C7: a `new` expression whose type name resolves to a contract type
records the contract in `createdContracts` (idempotent insertion) and leaves
the edge relation untouched; no reference shape handled by the new-expression
hook ever changes the edges. -/
theorem C7_instantiation_tracking :
    ∀ (env : Env) (main : Int) (visitC : VisitFn) (st : BuilderState)
      (cid : Int) (isSup : Bool),
      processRefCore env main visitC st (.newExpr (.contractType cid isSup)) =
        .ok { st with createdContracts := addCreated st.createdContracts cid } ∧
      cid ∈ addCreated st.createdContracts cid ∧
      (∀ ty, (visitNewExprCore st ty).edges = st.edges) := by
  intro env main visitC st cid isSup
  refine ⟨rfl, mem_addCreated_self _ _, ?_⟩
  intro ty
  cases ty <;> rfl

/-- C8: a modifier invocation resolving to a modifier definition is processed
as a direct call — resolved virtually under a `Virtual` lookup tag and
statically under a `Static` one — and the direct-call path records exactly
one edge from the current node to the resolved modifier, never any
dispatch-node edge (with no current node it records nothing). -/
theorem C8_modifier_invocation :
    (∀ (env : Env) (main : Int) (visitC : VisitFn) (st : BuilderState) (i : Int),
       processRefCore env main visitC st (.modifierInv (some ⟨i, .modifierDef⟩) .virtualLk) =
         processFunctionCore visitC st (resolveVirtual env main i none) true) ∧
    (∀ (env : Env) (main : Int) (visitC : VisitFn) (st : BuilderState) (i : Int),
       processRefCore env main visitC st (.modifierInv (some ⟨i, .modifierDef⟩) .staticLk) =
         processFunctionCore visitC st i true) ∧
    (∀ (edges : List (Node × List Node)) (created : List Int) (n : Node)
       (disp : SpecialNode) (c : Int),
       processFunctionEdges ⟨edges, created, some n, disp⟩ c true =
         addEdgeSt ⟨edges, created, some n, disp⟩ n (.callable c)) ∧
    (∀ (edges : List (Node × List Node)) (created : List Int)
       (disp : SpecialNode) (c : Int),
       processFunctionEdges ⟨edges, created, none, disp⟩ c true =
         ⟨edges, created, none, disp⟩) :=
  ⟨fun env main visitC st i => rfl,
   fun env main visitC st i => rfl,
   fun edges created n disp c => rfl,
   fun edges created disp c => rfl⟩

/-- C9 counterexample: `envC9` contains a Super-tagged member access whose
qualifying expression type is not a (super) contract type, yet the build
completes without any assertion failure — the super resolution is silently
skipped, refuting the claim that this shape fails an assertion. -/
theorem C9_counterexample : build envC9 0 10 = .ok stC9 := by rfl

/-- C9 (amended): a Super-tagged member access whose qualifier resolves to a
type type over a non-super contract type fails an assertion; one whose
qualifier does not resolve to a type type over a contract type at all is
silently processed with the statically referenced function (no failure); a
non-Super member-access lookup other than Static (on an internal-function
reference) fails an assertion; and a plain identifier reference to a
callable with a lookup tag other than Virtual fails an assertion. -/
theorem C9_assert_behavior :
    (∀ (env : Env) (main : Int) (visitC : VisitFn) (st : BuilderState)
       (i cidq : Int) (direct : Bool),
       endVisitMemberCore env main visitC st (.funType .internalFun)
         (some ⟨i, .functionDef⟩) .superLk (.typeType (.contractType cidq false)) direct =
         .error .superNotSuperContract) ∧
    (∀ (env : Env) (main : Int) (visitC : VisitFn) (st : BuilderState)
       (i : Int) (ety : TypeAnn) (direct : Bool),
       (∀ cid sup, ety ≠ .typeType (.contractType cid sup)) →
       endVisitMemberCore env main visitC st (.funType .internalFun)
         (some ⟨i, .functionDef⟩) .superLk ety direct =
         processFunctionCore visitC st i direct) ∧
    (∀ (env : Env) (main : Int) (visitC : VisitFn) (st : BuilderState)
       (i : Int) (ety : TypeAnn) (direct : Bool),
       endVisitMemberCore env main visitC st (.funType .internalFun)
         (some ⟨i, .functionDef⟩) .virtualLk ety direct =
         .error .memberLookupNotStatic) ∧
    (∀ (env : Env) (main : Int) (visitC : VisitFn) (st : BuilderState)
       (d : Decl) (lk : VirtualLookup) (ty : TypeAnn) (direct : Bool),
       d.isCallable = true → lk ≠ .virtualLk →
       visitIdentCore env main visitC st (some d) lk ty direct =
         .error .identLookupNotVirtual) := by
  refine ⟨?_, ?_, ?_, ?_⟩
  · intro env main visitC st i cidq direct
    rfl
  · intro env main visitC st i ety direct hne
    cases ety with
    | funType k => rfl
    | contractType cid sup => rfl
    | typeType actual =>
      cases actual with
      | funType k => rfl
      | contractType cid sup => exact absurd rfl (hne cid sup)
      | typeType a2 => rfl
      | otherType => rfl
    | otherType => rfl
  · intro env main visitC st i ety direct
    rfl
  · intro env main visitC st d lk ty direct hc hlk
    simp only [visitIdentCore]
    rw [if_pos hc, if_pos hlk]

/-- C9 amended witness: the silent-skip equation at a qualifier of plain
type, and the identifier assertion at a Static-tagged callable reference. -/
theorem C9_assert_behavior_witness :
    endVisitMemberCore envC9 0 (fun s c => visitCallable envC9 0 5 s c) stC9
      (.funType .internalFun) (some ⟨77, .functionDef⟩) .superLk .otherType true =
      processFunctionCore (fun s c => visitCallable envC9 0 5 s c) stC9 77 true ∧
    visitIdentCore envC9 0 (fun s c => visitCallable envC9 0 5 s c) stC9
      (some ⟨77, .functionDef⟩) .staticLk (.funType .internalFun) true =
      .error .identLookupNotVirtual :=
  ⟨C9_assert_behavior.2.1 envC9 0 (fun s c => visitCallable envC9 0 5 s c) stC9 77
     .otherType true (fun cid sup h => TypeAnn.noConfusion h),
   C9_assert_behavior.2.2.2 envC9 0 (fun s c => visitCallable envC9 0 5 s c) stC9
     ⟨77, .functionDef⟩ .staticLk (.funType .internalFun) true (by rfl)
     (fun h => VirtualLookup.noConfusion h)⟩

/-- C10: the heterogeneous `CompareByID` forms assert that the node operand
is a callable (a special node is a fatal assertion failure) and otherwise
return exactly whether the declaration id is less than (respectively greater
than) the raw id. -/
theorem C10_compare_by_id :
    (∀ (s : SpecialNode) (r : Int),
       compareByIDNodeInt (.special s) r = .error .comparatorSpecialOperand) ∧
    (∀ (i r : Int), compareByIDNodeInt (.callable i) r = .ok (decide (i < r))) ∧
    (∀ (l : Int) (s : SpecialNode),
       compareByIDIntNode l (.special s) = .error .comparatorSpecialOperand) ∧
    (∀ (l i : Int), compareByIDIntNode l (.callable i) = .ok (decide (l < i))) :=
  ⟨fun s r => rfl, fun i r => rfl, fun l s => rfl, fun l i => rfl⟩

/-- C3 witness: the plain-call edge of the super-versus-virtual scenario. -/
theorem C3_super_vs_virtual_witness :
    hasEdge stC3.edges (.callable 30) (.callable 20) = true :=
  C3_super_vs_virtual.2.1

/-- C4 witness: the indirect-call equation at a concrete state and target. -/
theorem C4_indirect_call_symmetry_witness :
    processFunctionCore (fun s _ => Except.ok s) stTrivial 60 false =
      .ok (addEdgeSt (addEdgeSt stTrivial (.special stTrivial.currentDispatch) (.callable 60))
        (.callable 60) (.special stTrivial.currentDispatch)) :=
  (C4_indirect_call_symmetry (fun s _ => Except.ok s) stTrivial 60).1

/-- C7 witness: the instantiation-tracking equation at a concrete state. -/
theorem C7_instantiation_tracking_witness :
    processRefCore envTrivial 0 (fun s _ => Except.ok s) stTrivial
      (.newExpr (.contractType 7 false)) =
      .ok { stTrivial with createdContracts := addCreated stTrivial.createdContracts 7 } :=
  (C7_instantiation_tracking envTrivial 0 (fun s _ => Except.ok s) stTrivial 7 false).1

/-- C8 witness: the virtual-lookup modifier equation at a concrete state. -/
theorem C8_modifier_invocation_witness :
    processRefCore envTrivial 0 (fun s _ => Except.ok s) stTrivial
      (.modifierInv (some ⟨9, .modifierDef⟩) .virtualLk) =
      processFunctionCore (fun s _ => Except.ok s) stTrivial
        (resolveVirtual envTrivial 0 9 none) true :=
  C8_modifier_invocation.1 envTrivial 0 (fun s _ => Except.ok s) stTrivial 9

/-- C10 witness: the callable-versus-raw-id comparison at concrete ids. -/
theorem C10_compare_by_id_witness :
    compareByIDNodeInt (.callable 3) 5 = .ok (decide ((3 : Int) < 5)) :=
  C10_compare_by_id.2.1 3 5

end FunctionCallGraph
